import Mathlib

/-!
Formal model of the claim-processing core of the `claim-processing`
repository: the duplicate detector (`src/gemini_integration/duplicate_detector.py`,
including a faithful functional embedding of Python's
`difflib.SequenceMatcher` ratio on which its fuzzy pass is built),
the fraud detector (`src/gemini_integration/fraud_detector.py`), and the
per-claim pipeline (`src/processing/pipeline.py`).

Modelling conventions:
* Python's dynamically typed values are modelled by `PyVal`; operations that
  can raise in Python return `Except PyErr _`.
* Python `float` arithmetic is modelled by exact rationals (`Rat`).
* `hashlib.md5` is modelled as an injective digest (the identity on the
  fingerprint text): only digest equality is ever used by the code.
* External collaborators (PDF text extraction, the hosted analysis service,
  report rendering, the filesystem, wall-clock time) are parameters of the
  model; the hosted service's reply is abstracted at the JSON-decode
  boundary by `AiResp`.
-/

namespace ClaimsProc

/-- Python-style dynamic values (the JSON-ish payloads the engines pass
around).  Dict keys are strings, as all such dicts originate from JSON or
from literals with string keys in the source. -/
inductive PyVal : Type where
  | str (s : String)
  | int (n : Int)
  | float (q : Rat)
  | bool (b : Bool)
  | none
  | list (xs : List PyVal)
  | dict (xs : List (String × PyVal))

/-- A Python dict with string keys (insertion-ordered, unique keys). -/
abbrev PyDict := List (String × PyVal)

/-- The processed-claims registry: a Python dict whose keys may be arbitrary
(hashable) values, since `self.processed_claims[result.claim_number]` uses a
dynamically typed key. Insertion-ordered. -/
abbrev Registry := List (PyVal × PyVal)

/-- Python exceptions relevant to the modelled code. -/
inductive PyErr : Type where
  | typeError (msg : String)
  | attributeError (msg : String)
  | keyError (msg : String)
  | valueError (msg : String)
deriving DecidableEq

/-- `d.get(k, dflt)` on a string-keyed dict. -/
def pyGet (d : PyDict) (k : String) (dflt : PyVal) : PyVal :=
  match d.find? (fun kv => kv.1 == k) with
  | some kv => kv.2
  | Option.none => dflt

/-- `d[k]` on a string-keyed dict: raises `KeyError` when absent. -/
def pyGetKey (d : PyDict) (k : String) : Except PyErr PyVal :=
  match d.find? (fun kv => kv.1 == k) with
  | some kv => .ok kv.2
  | Option.none => .error (.keyError k)

/-- `v.get(k, dflt)` on a dynamic value: only dicts have `.get`
(`AttributeError` otherwise). -/
def pyGetE (v : PyVal) (k : String) (dflt : PyVal) : Except PyErr PyVal :=
  match v with
  | .dict d => .ok (pyGet d k dflt)
  | _ => .error (.attributeError "get")

/-- Python truthiness. -/
def pyTruthy : PyVal → Bool
  | .str s => !s.isEmpty
  | .int n => decide (n ≠ 0)
  | .float q => decide (q ≠ 0)
  | .bool b => b
  | .none => false
  | .list xs => !xs.isEmpty
  | .dict xs => !xs.isEmpty

/-- `str(v)`.  Faithful for the values the claims exercise (`str`, `int`,
`bool`, `None`); the textual rendering of floats and containers is
abstracted (no modelled code path depends on it). -/
def pyStr : PyVal → String
  | .str s => s
  | .int n => toString n
  | .float q => toString q
  | .bool b => if b then "True" else "False"
  | .none => "None"
  | .list _ => "[...]"
  | .dict _ => "dict(...)"

/-- Numeric view: Python treats `bool` as a number; `int` and `float`
compare by value. -/
def pyNum? : PyVal → Option Rat
  | .int n => some (n : Rat)
  | .float q => some q
  | .bool b => some (if b then 1 else 0)
  | _ => Option.none

mutual
/-- Python `==` (never raises).  Cross-type numeric equality is by value;
everything else compares structurally (dict comparison is modelled
order-sensitively; no modelled code path compares reordered dicts). -/
def pyEq : PyVal → PyVal → Bool
  | .str a, .str b => a == b
  | .list a, .list b => pyEqList a b
  | .dict a, .dict b => pyEqDict a b
  | .none, .none => true
  | a, b =>
    match pyNum? a, pyNum? b with
    | some x, some y => decide (x = y)
    | _, _ => false

def pyEqList : List PyVal → List PyVal → Bool
  | [], [] => true
  | a :: as, b :: bs => pyEq a b && pyEqList as bs
  | _, _ => false

def pyEqDict : List (String × PyVal) → List (String × PyVal) → Bool
  | [], [] => true
  | a :: as, b :: bs => (a.1 == b.1) && pyEq a.2 b.2 && pyEqDict as bs
  | _, _ => false
end

mutual
/-- Python `a > b`: defined for number/number, str/str and list/list
(lexicographic), `TypeError` otherwise (e.g. str vs float, None, dicts). -/
def pyGt : PyVal → PyVal → Except PyErr Bool
  | .str a, .str b => .ok (decide (b < a))
  | .list a, .list b => pyGtList a b
  | a, b =>
    match pyNum? a, pyNum? b with
    | some x, some y => .ok (decide (y < x))
    | _, _ => .error (.typeError "unorderable types")

def pyGtList : List PyVal → List PyVal → Except PyErr Bool
  | [], [] => .ok false
  | [], _ :: _ => .ok false
  | _ :: _, [] => .ok true
  | a :: as, b :: bs => if pyEq a b then pyGtList as bs else pyGt a b
end

/-- `v.lower()`: only strings have `.lower` (`AttributeError` otherwise).
Python's Unicode lowercasing is modelled by `String.toLower` (ASCII);
the modelled inputs are ASCII. -/
def pyLowerE : PyVal → Except PyErr String
  | .str s => .ok s.toLower
  | _ => .error (.attributeError "lower")

/-- An element of `'|'.join(...)`: `TypeError` unless it is a str. -/
def asStrE : PyVal → Except PyErr String
  | .str s => .ok s
  | _ => .error (.typeError "sequence item: expected str instance")

/-- `for x in v` / `list.extend(v)`: strings yield their characters, lists
their elements, dicts their keys; other values raise `TypeError`. -/
def pyIterate : PyVal → Except PyErr (List PyVal)
  | .str s => .ok (s.data.map (fun c => .str (String.mk [c])))
  | .list xs => .ok xs
  | .dict xs => .ok (xs.map (fun kv => PyVal.str kv.1))
  | _ => .error (.typeError "object is not iterable")

/-- Python `x in d` for the registry dict: hash-based membership, i.e.
`==` against some key; unhashable `x` (list/dict) raises `TypeError`. -/
def pyInRegistry (x : PyVal) (reg : Registry) : Except PyErr Bool :=
  match x with
  | .list _ => .error (.typeError "unhashable type: list")
  | .dict _ => .error (.typeError "unhashable type: dict")
  | _ => .ok (reg.any (fun kv => pyEq x kv.1))

/-- `d[k] = v` on the registry: replaces in place the value at an `==`-equal
key (keeping its position, as Python dicts do) or appends; unhashable keys
raise `TypeError`. -/
def regSetE (reg : Registry) (k v : PyVal) : Except PyErr Registry :=
  match k with
  | .list _ => .error (.typeError "unhashable type: list")
  | .dict _ => .error (.typeError "unhashable type: dict")
  | _ =>
    if reg.any (fun kv => pyEq kv.1 k) then
      .ok (reg.map (fun kv => if pyEq kv.1 k then (kv.1, v) else kv))
    else
      .ok (reg ++ [(k, v)])

/-- Python substring test `needle in hay`. -/
def strContainsSub (hay needle : String) : Bool :=
  (List.range (hay.data.length + 1)).any
    (fun s => needle.data.isPrefixOf (hay.data.drop s))

/-- `any(p in hay for p in needles)`. -/
def containsAny (hay : String) (needles : List String) : Bool :=
  needles.any (fun n => strContainsSub hay n)

/-!
## `difflib.SequenceMatcher` (CPython), specialised to `isjunk=None`

`DuplicateDetector._calculate_similarity` is
`SequenceMatcher(None, text1.lower(), text2.lower()).ratio()`.
With `isjunk=None` the junk set `bjunk` is empty, so the junk-extension
loops of `find_longest_match` never fire and `isbjunk` is constantly
false; the autojunk rule still purges "popular" elements (count
`> len(b)//100 + 1` when `len(b) >= 200`) from `b2j`.
The embedding below was cross-validated against CPython's `difflib`
on thousands of random inputs.
-/

namespace SeqMatch

/-- Positions of `c` in `b`, ascending (the `b2j` lists before purging). -/
def occurrences (b : List Char) (c : Char) : List Nat :=
  (List.range b.length).filter (fun j => b.getD j ' ' == c)

/-- The autojunk popularity threshold `len(b) // 100 + 1`. -/
def popularCut (b : List Char) : Nat := b.length / 100 + 1

/-- Autojunk: an element is "popular" when `len(b) >= 200` and it occurs
more than `len(b)//100 + 1` times. -/
def isPopular (b : List Char) (c : Char) : Bool :=
  decide (200 ≤ b.length) && decide (popularCut b < (occurrences b c).length)

/-- `b2j` after autojunk purging: popular elements have no entry. -/
def b2j (b : List Char) (c : Char) : List Nat :=
  if isPopular b c then [] else occurrences b c

/-- The running best match `(besti, bestj, bestsize)`. -/
structure BestM where
  bi : Nat
  bj : Nat
  size : Nat
deriving DecidableEq

/-- One row `i` of the `find_longest_match` dynamic programme: fold over
the in-range candidate columns `js` (ascending), reading chain lengths
from the previous row's `j2len` and building the new row's map.
`j2len.get(j-1, 0)` at `j = 0` reads the absent key `-1`, hence the
explicit `j = 0` case. -/
def rowStep (j2len : Nat → Nat) (i : Nat) (best : BestM) (js : List Nat) :
    (Nat → Nat) × BestM :=
  js.foldl
    (fun st j =>
      let k := (if j = 0 then 0 else j2len (j - 1)) + 1
      ((fun j' => if j' = j then k else st.1 j'),
       if st.2.size < k then ⟨i + 1 - k, j + 1 - k, k⟩ else st.2))
    ((fun _ => 0), best)

/-- The candidate columns scanned at row `i`: `b2j[a[i]]` restricted to
`blo <= j < bhi` (the `continue`/`break` filters; `b2j` lists are
ascending, so `break` is a filter). -/
def rowCands (a b : List Char) (blo bhi i : Nat) : List Nat :=
  (b2j b (a.getD i ' ')).filter (fun j => decide (blo ≤ j) && decide (j < bhi))

/-- The `for i in range(alo, ahi)` dynamic programme of
`find_longest_match`. -/
def dpLoop (a b : List Char) (alo ahi blo bhi : Nat) : BestM :=
  ((List.range' alo (ahi - alo)).foldl
    (fun (st : (Nat → Nat) × BestM) i =>
      rowStep st.1 i st.2 (rowCands a b blo bhi i))
    ((fun _ => 0), ⟨alo, blo, 0⟩)).2

/-- The backward extension loop (`isbjunk` is constantly false with
`isjunk=None`, and `bjunk` is empty so the junk loops never fire).
Structural fuel makes the loop kernel-evaluable; each iteration decreases
`m.bi` by one under the guard `alo < m.bi`, so fuel `m.bi` always
dominates the iteration count. -/
def extLowF (a b : List Char) (alo blo : Nat) : Nat → BestM → BestM
  | 0, m => m
  | fuel + 1, m =>
    if alo < m.bi ∧ blo < m.bj ∧ a.getD (m.bi - 1) ' ' = b.getD (m.bj - 1) ' '
    then extLowF a b alo blo fuel ⟨m.bi - 1, m.bj - 1, m.size + 1⟩
    else m

def extLow (a b : List Char) (alo blo : Nat) (m : BestM) : BestM :=
  extLowF a b alo blo m.bi m

/-- The forward extension loop.  Each iteration increases `m.size` by one
under the guard `m.bi + m.size < ahi`, so fuel `ahi - (m.bi + m.size)`
always dominates the iteration count. -/
def extHighF (a b : List Char) (ahi bhi : Nat) : Nat → BestM → BestM
  | 0, m => m
  | fuel + 1, m =>
    if m.bi + m.size < ahi ∧ m.bj + m.size < bhi ∧
        a.getD (m.bi + m.size) ' ' = b.getD (m.bj + m.size) ' '
    then extHighF a b ahi bhi fuel ⟨m.bi, m.bj, m.size + 1⟩
    else m

def extHigh (a b : List Char) (ahi bhi : Nat) (m : BestM) : BestM :=
  extHighF a b ahi bhi (ahi - (m.bi + m.size)) m

/-- `SequenceMatcher.find_longest_match(alo, ahi, blo, bhi)`. -/
def find_longest_match (a b : List Char) (alo ahi blo bhi : Nat) : BestM :=
  extHigh a b ahi bhi (extLow a b alo blo (dpLoop a b alo ahi blo bhi))

/-- The returned match lies inside the queried region. -/
def InRegion (alo ahi blo bhi : Nat) (m : BestM) : Prop :=
  alo ≤ m.bi ∧ blo ≤ m.bj ∧ m.bi + m.size ≤ ahi ∧ m.bj + m.size ≤ bhi

/-- Invariant-preservation along `List.foldl`. -/
theorem foldl_inv {α σ : Type _} (P : σ → Prop) (Q : α → Prop) (f : σ → α → σ) :
    ∀ (l : List α) (s : σ), P s → (∀ x ∈ l, Q x) →
      (∀ s x, P s → Q x → P (f s x)) → P (l.foldl f s)
  | [], s, hs, _, _ => hs
  | x :: xs, s, hs, hq, hstep =>
    foldl_inv P Q f xs (f s x) (hstep s x hs (hq x (List.mem_cons_self x xs)))
      (fun y hy => hq y (List.mem_cons_of_mem x hy)) hstep

/-- Prefix-tracking invariant-preservation along `List.foldl`. -/
theorem foldl_step_inv {α σ : Type _} (f : σ → α → σ) (P : List α → σ → Prop) :
    ∀ (rest pre : List α) (s : σ),
      P pre s →
      (∀ p x r s', pre ++ rest = p ++ x :: r → P p s' → P (p ++ [x]) (f s' x)) →
      P (pre ++ rest) (rest.foldl f s)
  | [], pre, s, h, _ => by simpa using h
  | x :: rs, pre, s, h, hstep => by
    have h1 : P (pre ++ [x]) (f s x) := hstep pre x rs s rfl h
    have h2 := foldl_step_inv f P rs (pre ++ [x]) (f s x) h1
      (fun p y r s' hEq hp => hstep p y r s' (by simpa using hEq) hp)
    simpa using h2

/-- Invariant of a `j2len` row map: values bounded by the number of rows
processed, and nonzero only at in-range columns with chains fitting in
`[blo, j]`. -/
def J2B (blo bhi cnt : Nat) (f : Nat → Nat) : Prop :=
  ∀ j, f j ≤ cnt ∧ (f j ≠ 0 → blo ≤ j ∧ j < bhi ∧ f j + blo ≤ j + 1)

/-- Invariant of the running best match after the rows below `r`. -/
def BOK (alo blo bhi r : Nat) (m : BestM) : Prop :=
  alo ≤ m.bi ∧ blo ≤ m.bj ∧ m.bi + m.size ≤ r ∧ m.bj + m.size ≤ bhi

theorem rowStep_bounds (blo bhi alo : Nat) (f : Nat → Nat) (i : Nat)
    (best : BestM) (js : List Nat) (cnt : Nat)
    (hf : J2B blo bhi cnt f) (hb : BOK alo blo bhi i best)
    (hjs : ∀ j ∈ js, blo ≤ j ∧ j < bhi) (hi : cnt + alo ≤ i) :
    J2B blo bhi (i + 1 - alo) (rowStep f i best js).1 ∧
      BOK alo blo bhi (i + 1) (rowStep f i best js).2 := by
  have halo : alo ≤ i := le_trans (Nat.le_add_left alo cnt) hi
  unfold rowStep
  refine foldl_inv
    (fun st => J2B blo bhi (i + 1 - alo) st.1 ∧ BOK alo blo bhi (i + 1) st.2)
    (fun j => blo ≤ j ∧ j < bhi) _ js ((fun _ => 0), best)
    ⟨fun j => ⟨Nat.zero_le _, fun h => absurd rfl h⟩,
      ⟨hb.1, hb.2.1, le_trans hb.2.2.1 (Nat.le_succ i), hb.2.2.2⟩⟩ hjs ?_
  rintro ⟨g, m⟩ j ⟨hg, hm⟩ ⟨hjlo, hjhi⟩
  dsimp only
  have hk1 : (if j = 0 then 0 else f (j - 1)) + 1 ≤ i + 1 - alo := by
    split
    · omega
    · have := (hf (j - 1)).1; omega
  have hk2 : (if j = 0 then 0 else f (j - 1)) + 1 + blo ≤ j + 1 := by
    split
    · next hj0 => omega
    · next hj0 =>
      rcases Nat.eq_zero_or_pos (f (j - 1)) with h0 | h0
      · omega
      · have := (hf (j - 1)).2 (by omega); omega
  set k := (if j = 0 then 0 else f (j - 1)) + 1 with hkdef
  obtain ⟨m1, m2, m3, m4⟩ := hm
  constructor
  · intro j'
    by_cases hjj : j' = j
    · subst hjj
      simp only [if_pos rfl]
      exact ⟨hk1, fun _ => ⟨hjlo, hjhi, hk2⟩⟩
    · simp only [if_neg hjj]
      exact hg j'
  · by_cases hsz : m.size < k
    · simp only [if_pos hsz]
      refine ⟨?_, ?_, ?_, ?_⟩ <;> dsimp only <;> omega
    · simp only [if_neg hsz]
      exact ⟨m1, m2, m3, m4⟩

theorem dpLoop_bounds (a b : List Char) (alo ahi blo bhi : Nat)
    (hab : alo ≤ ahi) (hbb : blo ≤ bhi) :
    BOK alo blo bhi ahi (dpLoop a b alo ahi blo bhi) := by
  unfold dpLoop
  have main : ∀ (n r : Nat) (st : (Nat → Nat) × BestM), alo ≤ r → r + n ≤ ahi →
      J2B blo bhi (r - alo) st.1 → BOK alo blo bhi r st.2 →
      J2B blo bhi (r + n - alo) ((List.range' r n).foldl
        (fun (st : (Nat → Nat) × BestM) i =>
          rowStep st.1 i st.2 (rowCands a b blo bhi i)) st).1 ∧
      BOK alo blo bhi (r + n) ((List.range' r n).foldl
        (fun (st : (Nat → Nat) × BestM) i =>
          rowStep st.1 i st.2 (rowCands a b blo bhi i)) st).2 := by
    intro n
    induction n with
    | zero => intro r st _ _ h1 h2; simpa using ⟨h1, h2⟩
    | succ n ih =>
      intro r st hr hrn h1 h2
      have hjs : ∀ j ∈ rowCands a b blo bhi r, blo ≤ j ∧ j < bhi := by
        intro j hj
        simp only [rowCands, List.mem_filter, Bool.and_eq_true, decide_eq_true_eq] at hj
        exact hj.2
      have hstep := rowStep_bounds blo bhi alo st.1 r st.2
        (rowCands a b blo bhi r) (r - alo) h1 h2 hjs (by omega)
      have := ih (r + 1) (rowStep st.1 r st.2 (rowCands a b blo bhi r))
        (by omega) (by omega) (by have := hstep.1; simpa using this)
        hstep.2
      have e1 : r + (n + 1) = r + 1 + n := by omega
      rw [e1]
      simpa [List.range'_succ] using this
  have hinit : BOK alo blo bhi alo ⟨alo, blo, 0⟩ := by
    unfold BOK; dsimp only; omega
  have := main (ahi - alo) alo ((fun _ => 0), ⟨alo, blo, 0⟩) le_rfl (by omega)
    (fun j => ⟨Nat.zero_le _, fun h => absurd rfl h⟩) hinit
  have h2 := this.2
  have : alo + (ahi - alo) = ahi := by omega
  rwa [this] at h2

theorem extLowF_inv (a b : List Char) (alo ahi blo bhi : Nat) :
    ∀ (fuel : Nat) (m : BestM), InRegion alo ahi blo bhi m →
      InRegion alo ahi blo bhi (extLowF a b alo blo fuel m)
  | 0, _, hm => hm
  | fuel + 1, m, hm => by
    unfold extLowF
    split
    · next h =>
      exact extLowF_inv a b alo ahi blo bhi fuel ⟨m.bi - 1, m.bj - 1, m.size + 1⟩
        (by
          obtain ⟨h1, h2, h3, h4⟩ := hm
          obtain ⟨g1, g2, g3⟩ := h
          refine ⟨?_, ?_, ?_, ?_⟩ <;> dsimp only <;> omega)
    · exact hm

theorem extHighF_inv (a b : List Char) (alo ahi blo bhi : Nat) :
    ∀ (fuel : Nat) (m : BestM), InRegion alo ahi blo bhi m →
      InRegion alo ahi blo bhi (extHighF a b ahi bhi fuel m)
  | 0, _, hm => hm
  | fuel + 1, m, hm => by
    unfold extHighF
    split
    · next h =>
      exact extHighF_inv a b alo ahi blo bhi fuel ⟨m.bi, m.bj, m.size + 1⟩
        (by
          obtain ⟨h1, h2, h3, h4⟩ := hm
          obtain ⟨g1, g2, g3⟩ := h
          refine ⟨?_, ?_, ?_, ?_⟩ <;> dsimp only <;> omega)
    · exact hm

/-- The match returned by `find_longest_match` lies inside the queried
region. -/
theorem flm_bounds (a b : List Char) (alo ahi blo bhi : Nat)
    (hab : alo ≤ ahi) (hbb : blo ≤ bhi) :
    InRegion alo ahi blo bhi (find_longest_match a b alo ahi blo bhi) := by
  have h0 := dpLoop_bounds a b alo ahi blo bhi hab hbb
  have h1 : InRegion alo ahi blo bhi (dpLoop a b alo ahi blo bhi) :=
    ⟨h0.1, h0.2.1, h0.2.2.1, h0.2.2.2⟩
  exact extHighF_inv a b alo ahi blo bhi _ _
    (extLowF_inv a b alo ahi blo bhi _ _ h1)

/-- Total matched size over `get_matching_blocks`' recursion on regions
(the sort/adjacent-merge steps of `get_matching_blocks` do not change the
total, which is all `ratio` uses).  Structural fuel makes the recursion
kernel-evaluable: by `flm_bounds` each recursive region is strictly
shorter on the `a` side, so fuel `ahi - alo + 1` always dominates the
recursion depth and the fuel-0 branch is unreachable from `match_total`. -/
def matchTotalF (a b : List Char) : Nat → Nat → Nat → Nat → Nat → Nat
  | 0, _, _, _, _ => 0
  | fuel + 1, alo, ahi, blo, bhi =>
    match find_longest_match a b alo ahi blo bhi with
    | ⟨bi, bj, k⟩ =>
      if k = 0 then 0
      else
        (if alo < bi ∧ blo < bj then matchTotalF a b fuel alo bi blo bj else 0)
        + k
        + (if bi + k < ahi ∧ bj + k < bhi then
            matchTotalF a b fuel (bi + k) ahi (bj + k) bhi
          else 0)

def match_total (a b : List Char) (alo ahi blo bhi : Nat) : Nat :=
  matchTotalF a b (ahi - alo + 1) alo ahi blo bhi

/-- `SequenceMatcher.ratio()`: `2*M/T`, or `1.0` when both sequences are
empty (`_calculate_ratio`). -/
def ratioVal (aS bS : String) : Rat :=
  let a := aS.data
  let b := bS.data
  let T := a.length + b.length
  if T = 0 then 1
  else (2 * (match_total a b 0 a.length 0 b.length : Rat)) / (T : Rat)

end SeqMatch

/-!
## `DuplicateDetector` (`src/gemini_integration/duplicate_detector.py`)
-/

/-- `settings.DUPLICATE_THRESHOLD`: `float(os.getenv('DUPLICATE_THRESHOLD', '0.8'))`.
The detector takes the threshold as a parameter; this is its default. -/
def default_duplicate_threshold : Rat := mkRat 4 5

/-- `_calculate_similarity`:
`SequenceMatcher(None, text1.lower(), text2.lower()).ratio()`. -/
def calculate_similarity (text1 text2 : String) : Rat :=
  SeqMatch.ratioVal text1.toLower text2.toLower

/-- `hashlib.md5(...).hexdigest()` modelled as an injective digest: the
code only ever compares digests for equality, and the spec (§4.1) defines
exact matches by equality of the underlying field tuples. -/
def md5_digest (s : String) : String := s

/-- `_create_claim_fingerprint`: joins
`(claim_number, insured_party, str(claim_amount), loss_date, loss_location)`
with `'|'` and digests.  `claim.get` raises `AttributeError` on non-dicts;
`'|'.join` raises `TypeError` at the first non-str field. -/
def create_claim_fingerprint (claim : PyVal) : Except PyErr String := do
  let f1 ← pyGetE claim "claim_number" (.str "")
  let f2 ← pyGetE claim "insured_party" (.str "")
  let f3 ← pyGetE claim "claim_amount" (.int 0)
  let f4 ← pyGetE claim "loss_date" (.str "")
  let f5 ← pyGetE claim "loss_location" (.str "")
  let s1 ← asStrE f1
  let s2 ← asStrE f2
  let s4 ← asStrE f4
  let s5 ← asStrE f5
  pure (md5_digest (String.intercalate "|" [s1, s2, pyStr f3, s4, s5]))

/-- `_get_claim_text`: space-joins the truthy entries of
`[claim_number, insured_party, loss_description, loss_location,
str(claim_amount)]`, rendering each with `str`. -/
def get_claim_text (claim : PyVal) : Except PyErr String := do
  let f1 ← pyGetE claim "claim_number" (.str "")
  let f2 ← pyGetE claim "insured_party" (.str "")
  let f3 ← pyGetE claim "loss_description" (.str "")
  let f4 ← pyGetE claim "loss_location" (.str "")
  let f5 ← pyGetE claim "claim_amount" (.int 0)
  let parts := [f1, f2, f3, f4, PyVal.str (pyStr f5)]
  pure (String.intercalate " " ((parts.filter (fun p => pyTruthy p)).map pyStr))

/-- One entry of the per-pass match lists (`matching_fields` is stored as
whatever value the producing pass supplies, like the Python dicts). -/
structure MatchCand where
  claim_id : PyVal
  match_type : String
  confidence : PyVal
  matching_fields : PyVal

/-- `_check_exact_matches`: fingerprint of the current claim against the
fingerprint of every registry entry, in registry order. -/
def check_exact_matches (cur : PyVal) (reg : Registry) :
    Except PyErr (List MatchCand) := do
  let cfp ← create_claim_fingerprint cur
  reg.foldlM
    (fun acc kv => do
      let efp ← create_claim_fingerprint kv.2
      if cfp = efp then
        pure (acc ++ [⟨kv.1, "exact", .float 1, .list [.str "full_claim_fingerprint"]⟩])
      else
        pure acc)
    []

/-- `_check_similar_matches`: fuzzy similarity of the claim texts against
every registry entry; flags when `similarity > threshold` (strict). -/
def check_similar_matches (threshold : Rat) (cur : PyVal) (reg : Registry) :
    Except PyErr (List MatchCand) := do
  let ctext ← get_claim_text cur
  reg.foldlM
    (fun acc kv => do
      let etext ← get_claim_text kv.2
      let s := calculate_similarity ctext etext
      if threshold < s then
        pure (acc ++ [⟨kv.1, "similar", .float s, .list [.str "claim_content"]⟩])
      else
        pure acc)
    []

/-- The hosted analysis service's reply to a prompt, abstracted at the
JSON-decode boundary of `_parse_ai_duplicate_result`:
`raises` models an exception escaping the service call,
`noJsonFence` a reply without a json code fence,
`badJson` a fenced reply on which `json.loads` raises, and
`json v` a fenced reply decoding to `v`. -/
inductive AiResp : Type where
  | raises
  | noJsonFence (raw : String)
  | badJson (raw : String)
  | json (v : PyVal)

mutual
/-- `json.dumps`, used only to render prompt text (its exact output shape
is irrelevant to every modelled property). -/
def pyDumps : PyVal → String
  | .str s => "\"" ++ s ++ "\""
  | .int n => toString n
  | .float q => toString q
  | .bool b => if b then "true" else "false"
  | .none => "null"
  | .list xs => "[" ++ pyDumpsList xs ++ "]"
  | .dict xs => "\x7b" ++ pyDumpsDict xs ++ "\x7d"

def pyDumpsList : List PyVal → String
  | [] => ""
  | [x] => pyDumps x
  | x :: xs => pyDumps x ++ ", " ++ pyDumpsList xs

def pyDumpsDict : List (String × PyVal) → String
  | [] => ""
  | [kv] => "\"" ++ kv.1 ++ "\": " ++ pyDumps kv.2
  | kv :: xs => "\"" ++ kv.1 ++ "\": " ++ pyDumps kv.2 ++ ", " ++ pyDumpsDict xs
end

/-- `json.dumps` of the registry sample passed to the prompt. -/
def regDumps : Registry → String
  | [] => ""
  | [kv] => "\"" ++ pyStr kv.1 ++ "\": " ++ pyDumps kv.2
  | kv :: xs => "\"" ++ pyStr kv.1 ++ "\": " ++ pyDumps kv.2 ++ ", " ++ regDumps xs

/-- `_build_duplicate_prompt` (the fixed instruction text is abbreviated;
only the fact that the prompt is a function of the current claim and the
registry sample matters to the modelled properties). -/
def build_duplicate_prompt (cur : PyVal) (sample : Registry) : String :=
  "DUPLICATE_DETECTION_PROMPT\n\nCURRENT CLAIM:\n" ++ pyDumps cur ++
    "\n\nPREVIOUSLY PROCESSED CLAIMS:\n\x7b" ++ regDumps sample ++
    "\x7d\n\nAnalyze if the current claim is a duplicate."

/-- The `len(processed_claims) > 10` cap of `_ai_duplicate_check`. -/
def ai_sample (reg : Registry) : Registry :=
  if 10 < reg.length then reg.take 10 else reg

/-- `_parse_ai_duplicate_result`: decodes the fenced JSON (or substitutes
the empty default when there is no fence), iterates `matches`, keeps only
entries whose `claim_id` is a registry key, and returns `[]` on any
exception (the whole accumulated list is discarded, as the `except`
wraps the loop). -/
def parse_ai_duplicate_result (resp : AiResp) (reg : Registry) : List MatchCand :=
  match
    (do
      let ai : PyVal ←
        match resp with
        | .raises => Except.error (PyErr.valueError "unreachable")
        | .noJsonFence _ =>
            pure (PyVal.dict [("matches", PyVal.list []), ("confidence", PyVal.float 0)])
        | .badJson _ => Except.error (PyErr.valueError "invalid json")
        | .json v => pure v
      let ms ← pyGetE ai "matches" (.list [])
      let items ← pyIterate ms
      items.foldlM
        (fun acc it => do
          let cid ← pyGetE it "claim_id" PyVal.none
          let mem ← pyInRegistry cid reg
          if mem then do
            let conf ← pyGetE it "confidence" (.float (mkRat 7 10))
            let mf ← pyGetE it "matching_fields" (.list [.str "ai_analysis"])
            pure (acc ++ [(⟨cid, "ai_detected", conf, mf⟩ : MatchCand)])
          else
            pure acc)
        ([] : List MatchCand) : Except PyErr (List MatchCand)) with
  | .ok l => l
  | .error _ => []

/-- `_ai_duplicate_check`: caps the registry to its first 10 entries,
consults the external service on the prompt built from the capped sample,
and parses; its own `try/except` turns any escaping exception into `[]`.
Note that the parse validates ids against the FULL registry. -/
def ai_duplicate_check (analyze : String → AiResp) (cur : PyVal) (reg : Registry) :
    List MatchCand :=
  match analyze (build_duplicate_prompt cur (ai_sample reg)) with
  | .raises => []
  | r => parse_ai_duplicate_result r reg

/-- The dict returned by `check_duplicate`, with one `Option` field per
key that is present only on some return paths (`matchesKey` models the
`'matches'` key of the no-match branch, `error` the `'error'` key of the
failure branch). -/
structure DupVerdict where
  is_duplicate : Bool
  confidence : PyVal
  duplicate_of : Option PyVal
  match_type : Option String
  matchesKey : Option (List MatchCand)
  all_matches : Option (List MatchCand)
  total_matches_found : Option Nat
  error : Option String

/-- `str(e)` of a caught exception (the message text). -/
def errStr : PyErr → String
  | .typeError m => m
  | .attributeError m => m
  | .keyError m => m
  | .valueError m => m

/-- `_combine_duplicate_results`: concatenated candidates, then
`max(all_matches, key=lambda x: x['confidence'])` (Python `max` keeps the
first of equally-large items and compares with `>` which may raise
`TypeError` on mixed-type confidences). -/
def combine_duplicate_results (all : List MatchCand) : Except PyErr DupVerdict :=
  match all with
  | [] =>
    .ok
      { is_duplicate := false
        confidence := .float 0
        duplicate_of := Option.none
        match_type := Option.none
        matchesKey := some []
        all_matches := Option.none
        total_matches_found := Option.none
        error := Option.none }
  | m0 :: rest => do
    let best ← rest.foldlM
      (fun b m => do
        let g ← pyGt m.confidence b.confidence
        pure (if g then m else b))
      m0
    pure
      { is_duplicate := true
        confidence := best.confidence
        duplicate_of := some best.claim_id
        match_type := some best.match_type
        matchesKey := Option.none
        all_matches := some all
        total_matches_found := some all.length
        error := Option.none }

/-- `check_duplicate`: empty registry short-circuits; otherwise the three
passes run in order (exact, fuzzy, AI) and are combined; the surrounding
`try/except` converts any escaping exception into the failure dict
`is_duplicate=False, confidence=0.0, error=str(e)`.  Only the AI pass has
its own `try/except`; exceptions in the exact pass (or in `max`) abort
the whole check. -/
def check_duplicate (threshold : Rat) (analyze : String → AiResp)
    (cur : PyVal) (reg : Registry) : DupVerdict :=
  if reg.isEmpty then
    { is_duplicate := false
      confidence := .float 0
      duplicate_of := Option.none
      match_type := Option.none
      matchesKey := Option.none
      all_matches := Option.none
      total_matches_found := Option.none
      error := Option.none }
  else
    match
      (do
        let exact ← check_exact_matches cur reg
        let simil ← check_similar_matches threshold cur reg
        let ai := ai_duplicate_check analyze cur reg
        combine_duplicate_results (exact ++ simil ++ ai) :
          Except PyErr DupVerdict) with
    | .ok v => v
    | .error e =>
      { is_duplicate := false
        confidence := .float 0
        duplicate_of := Option.none
        match_type := Option.none
        matchesKey := Option.none
        all_matches := Option.none
        total_matches_found := Option.none
        error := some (errStr e) }

/-!
## `FraudDetector` (`src/gemini_integration/fraud_detector.py`)
-/

/-- Environment of one `detect_fraud` call: the hosted service's reply to
the fraud prompt, the wall-clock oracle for the `strptime`/7-day branch
of `_suspicious_date_pattern` (true iff the date parses as `%Y-%m-%d` and
lies within 7 days of now), and `settings.FRAUD_THRESHOLD`
(default `0.7`). -/
structure FraudEnv where
  aiResp : AiResp
  recentLoss : String → Bool
  fraudThreshold : Rat

/-- `_suspicious_date_pattern`: falsy or sentinel dates are suspicious;
otherwise the recency branch decides; `.lower()` on a truthy non-str
raises. -/
def suspicious_date_pattern (recentLoss : String → Bool) (v : PyVal) :
    Except PyErr Bool :=
  if !pyTruthy v then .ok true
  else
    match v with
    | .str s =>
      if s.toLower = "unknown" ∨ s.toLower = "n/a" ∨ s.toLower = "" then .ok true
      else .ok (recentLoss s)
    | _ => .error (.attributeError "lower")

/-- `re.search(r'\d{6,}@', email)`: at least six digits immediately
before an `@` (Python's `\d` matches Unicode digits; modelled as ASCII
digits, which covers every modelled input). -/
def hasSixDigitsThenAt (s : String) : Bool :=
  (List.range s.data.length).any
    (fun p =>
      decide (s.data.getD p ' ' = '@') && decide (6 ≤ p) &&
      (List.range 6).all (fun t => (s.data.getD (p - 1 - t) ' ').isDigit))

/-- `_suspicious_email_pattern`. -/
def suspicious_email_pattern (email : String) : Bool :=
  containsAny email ["temp-mail", "throwaway", "guerrillamail"] ||
  hasSixDigitsThenAt email

/-- `_rule_based_fraud_detection`: the five additive rules
(+0.3 amount, +0.2 date, +0.1 location, +0.2 sender, +0.1 urgency),
capped with `min(score, 1.0)`. -/
def rule_based_fraud_detection (recentLoss : String → Bool)
    (claim email : PyDict) : Except PyErr Rat := do
  let amtGt ← pyGt (pyGet claim "claim_amount" (.int 0)) (.int 1000000)
  let s1 : Rat := if amtGt then mkRat 3 10 else 0
  let susDate ← suspicious_date_pattern recentLoss (pyGet claim "loss_date" (.str ""))
  let s2 : Rat := if susDate then mkRat 2 10 else 0
  let loc ← pyLowerE (pyGet claim "loss_location" (.str ""))
  let s3 : Rat := if containsAny loc ["unknown", "tbd", "n/a"] then mkRat 1 10 else 0
  let snd ← pyLowerE (pyGet email "sender_email" (.str ""))
  let s4 : Rat := if suspicious_email_pattern snd then mkRat 2 10 else 0
  let subj ← pyLowerE (pyGet email "subject" (.str ""))
  let s5 : Rat :=
    if containsAny subj ["urgent", "immediate", "asap", "emergency"] then mkRat 1 10 else 0
  pure (min (s1 + s2 + s3 + s4 + s5) 1)

/-- `_parse_fraud_analysis`: fenced JSON is returned as decoded; both
failure paths produce the degraded dict with `confidence: 0.5`. -/
def parse_fraud_analysis : AiResp → PyVal
  | .raises => .dict [("error", .str "ai failure"), ("score", .float (mkRat 1 2))]
  | .noJsonFence raw =>
    .dict
      [("fraud_indicators", .list [.str "Analysis completed but parsing failed"]),
       ("confidence", .float (mkRat 1 2)),
       ("recommendations", .list [.str "Manual review recommended"]),
       ("raw_analysis", .str raw)]
  | .badJson raw =>
    .dict
      [("fraud_indicators", .list [.str "Analysis parsing error"]),
       ("confidence", .float (mkRat 1 2)),
       ("recommendations", .list [.str "System error - manual review required"]),
       ("raw_analysis", .str raw)]
  | .json v => v

/-- `_ai_based_fraud_detection`: its own `try/except` maps an escaping
exception to `{'error': ..., 'score': 0.5}` (the `analyze_content`
wrapper itself never raises, returning an error string instead). -/
def ai_based_fraud_detection (env : FraudEnv) : PyVal :=
  match env.aiResp with
  | .raises => .dict [("error", .str "AI fraud detection failed"), ("score", .float (mkRat 1 2))]
  | r => parse_fraud_analysis r

/-- `_combine_fraud_scores`: `ai.get('confidence', 0.5)` when the AI
analysis is a dict (else `0.5`), then the fixed `0.6/0.4` blend, capped;
a non-numeric confidence raises `TypeError` at the multiplication. -/
def combine_fraud_scores (rule : Rat) (ai : PyVal) : Except PyErr Rat := do
  let aiConf :=
    match ai with
    | .dict d => pyGet d "confidence" (.float (mkRat 1 2))
    | _ => PyVal.float (mkRat 1 2)
  let aiQ ←
    match pyNum? aiConf with
    | some q => pure q
    | Option.none => Except.error (PyErr.typeError "unsupported operand type")
  pure (min (aiQ * mkRat 6 10 + rule * mkRat 4 10) 1)

/-- `_get_risk_level`: the step function. -/
def get_risk_level (score : Rat) : String :=
  if mkRat 8 10 ≤ score then "HIGH"
  else if mkRat 6 10 ≤ score then "MEDIUM"
  else if mkRat 4 10 ≤ score then "LOW"
  else "VERY LOW"

/-- `_extract_red_flags`: the amount rule's flag plus
`ai.get('fraud_indicators', [])` (extending with a non-iterable raises),
truncated to 10. -/
def extract_red_flags (claim : PyDict) (ai : PyVal) :
    Except PyErr (List PyVal) := do
  let amtGt ← pyGt (pyGet claim "claim_amount" (.int 0)) (.int 1000000)
  let base : List PyVal :=
    if amtGt then [.str "Exceptionally high claim amount"] else []
  let fromAi ←
    match ai with
    | .dict d => pyIterate (pyGet d "fraud_indicators" (.list []))
    | _ => pure []
  pure ((base ++ fromAi).take 10)

/-- First-occurrence deduplication (the model of `list(set(...))`: the
hash-iteration order of a Python set is abstracted to first-occurrence
order; no modelled property depends on the order). -/
def dedupFirst : List PyVal → List PyVal
  | [] => []
  | x :: xs => x :: dedupFirst (xs.filter (fun y => !pyEq x y))
termination_by l => l.length
decreasing_by
  simp only [List.length_cons]
  exact Nat.lt_succ_of_le (xs.length_filter_le _)

/-- `list(set(l))`: raises `TypeError` on unhashable elements. -/
def pySetDedup (l : List PyVal) : Except PyErr (List PyVal) :=
  if l.any (fun x => match x with | .list _ => true | .dict _ => true | _ => false) then
    Except.error (.typeError "unhashable type")
  else
    .ok (dedupFirst l)

/-- `_generate_fraud_recommendations`: threshold-dependent fixed texts,
extended with `ai.get('recommendations', [])`, deduplicated via `set`
and truncated to 5. -/
def generate_fraud_recommendations (fraudThreshold score : Rat) (ai : PyVal) :
    Except PyErr (List PyVal) := do
  let base : List PyVal :=
    if fraudThreshold < score then
      [.str "Immediate investigation required",
       .str "Contact insured party for verification",
       .str "Review supporting documentation carefully",
       .str "Consider involving special investigations unit"]
    else if mkRat 1 2 < score then
      [.str "Enhanced documentation review recommended",
       .str "Verify loss details with independent sources",
       .str "Check claim history of insured party"]
    else
      [.str "Standard processing procedures applicable"]
  let fromAi ←
    match ai with
    | .dict d => pyIterate (pyGet d "recommendations" (.list []))
    | _ => pure []
  let dedup ← pySetDedup (base ++ fromAi)
  pure (dedup.take 5)

/-- The dict returned by `detect_fraud`, as a record. -/
structure FraudResult where
  fraud_score : Rat
  risk_level : String
  rule_based_score : Rat
  ai_analysis : PyVal
  red_flags : List PyVal
  recommendations : List PyVal
  detection_methods : List String

/-- `_get_default_fraud_analysis`. -/
def default_fraud_analysis : FraudResult :=
  { fraud_score := mkRat 1 2
    risk_level := "UNKNOWN"
    rule_based_score := 0
    ai_analysis := .dict [("error", .str "Analysis failed")]
    red_flags := [.str "System error in fraud detection"]
    recommendations := [.str "Manual fraud assessment required"]
    detection_methods := ["failed"] }

/-- `detect_fraud`: rule-based plus AI-based scores, blended; the
surrounding `try/except` maps any escaping exception to the default
analysis (with `risk_level='UNKNOWN'`). -/
def detect_fraud (env : FraudEnv) (claim email : PyDict) : FraudResult :=
  match
    (do
      let rule ← rule_based_fraud_detection env.recentLoss claim email
      let ai := ai_based_fraud_detection env
      let final ← combine_fraud_scores rule ai
      let flags ← extract_red_flags claim ai
      let recs ← generate_fraud_recommendations env.fraudThreshold final ai
      pure
        { fraud_score := final
          risk_level := get_risk_level final
          rule_based_score := rule
          ai_analysis := ai
          red_flags := flags
          recommendations := recs
          detection_methods := ["rule_based", "ai_analysis"] } :
      Except PyErr FraudResult) with
  | .ok r => r
  | .error _ => default_fraud_analysis

/-!
## `ClaimsProcessingPipeline.process_single_claim`
(`src/processing/pipeline.py`)
-/

/-- The `report_data` dict assembled by `process_single_claim`:
`(email_data, claim_analysis, duplicate_check, fraud_analysis,
processing_timestamp)`. -/
abbrev ReportData := PyDict × PyDict × DupVerdict × FraudResult × String

/-- The `ProcessingResult` dataclass.  `analysis_results` is the
`report_data` dict on the success path and `{}` (modelled `none`) on the
error path. -/
structure ProcessingResult where
  email_id : PyVal
  claim_number : PyVal
  subject : PyVal
  sender_email : PyVal
  processing_status : String
  fraud_score : Rat
  is_duplicate : Bool
  duplicate_of : Option PyVal
  analysis_results : Option ReportData
  report_path : String
  processed_at : String

/-- External collaborators of one `process_single_claim` call:
PDF text extraction (`DocumentReader`), the claims analyzer (total — its
own `try/except` always yields a dict), the duplicate threshold and the
hosted service's replies, the fraud environment, report rendering (file
I/O, may raise), whether the registry file write succeeds, and the
wall clock. -/
structure PipeEnv where
  extract_text : String → Except PyErr String
  analyze_claim : String → PyDict → PyDict
  dupThreshold : Rat
  dupAnalyze : String → AiResp
  fraudEnv : FraudEnv
  generate_report : ReportData → Except PyErr String
  save_ok : Bool
  now : String

/-- The pipeline's shared state: the in-memory `self.processed_claims`
dict, the on-disk `processed_claims.json` contents, and a ghost record of
registry writes (the "recorded calls in a test double" of the spec; it
does not influence behaviour). -/
structure PipeState where
  mem : Registry
  file : Registry
  upserts : List PyVal

/-- `_extract_pdf_content`: any exception from the reader (including a
non-str path) is caught and yields `""`. -/
def extract_pdf_content (env : PipeEnv) (pdfPath : PyVal) : String :=
  match pdfPath with
  | .str p =>
    match env.extract_text p with
    | .ok t => t
    | .error _ => ""
  | _ => ""

/-- `_save_processed_claims`: writes the in-memory dict to disk, and
CATCHES any write failure, only logging it (the `except` block). -/
def save_processed_claims (env : PipeEnv) (st : PipeState) : PipeState :=
  if env.save_ok then { st with file := st.mem } else st

/-- The body of `process_single_claim`'s `try` block. -/
def process_try_body (env : PipeEnv) (st : PipeState) (email : PyDict) :
    Except PyErr (ProcessingResult × PipeState) :=
  (do
      let subj ← pyGetKey email "subject"
      let pdfPath ← pyGetKey email "pdf_path"
      let pdf_text := extract_pdf_content env pdfPath
      let analysis := env.analyze_claim pdf_text email
      let dup := check_duplicate env.dupThreshold env.dupAnalyze (.dict analysis) st.mem
      let fraud := detect_fraud env.fraudEnv analysis email
      let report_data : ReportData := (email, analysis, dup, fraud, env.now)
      let report_path ← env.generate_report report_data
      let email_id ← pyGetKey email "id"
      let sender ← pyGetKey email "sender_email"
      let result : ProcessingResult :=
        { email_id := email_id
          claim_number := pyGet analysis "claim_number" (.str "Unknown")
          subject := subj
          sender_email := sender
          processing_status := "completed"
          fraud_score := fraud.fraud_score
          is_duplicate := dup.is_duplicate
          duplicate_of := dup.duplicate_of
          analysis_results := some report_data
          report_path := report_path
          processed_at := env.now }
      let st' ←
        if dup.is_duplicate then pure st
        else do
          let entry : PyVal := .dict
            [("email_id", result.email_id), ("subject", result.subject),
             ("sender_email", result.sender_email), ("processed_at", .str env.now),
             ("fraud_score", .float result.fraud_score),
             ("analysis_summary", pyGet analysis "summary" (.dict []))]
          let mem' ← regSetE st.mem result.claim_number entry
          pure (save_processed_claims env
            { mem := mem', file := st.file, upserts := st.upserts ++ [result.claim_number] })
      pure (result, st') : Except PyErr (ProcessingResult × PipeState))

/-- The `except` handler of `process_single_claim`: builds the sentinel
`failed` result; its own subscripts may raise (and then propagate). -/
def failed_result_handler (env : PipeEnv) (st : PipeState) (email : PyDict) :
    Except PyErr (ProcessingResult × PipeState) := do
  let i ← pyGetKey email "id"
  let s ← pyGetKey email "subject"
  let se ← pyGetKey email "sender_email"
  pure
    ({ email_id := i
       claim_number := .str "Error"
       subject := s
       sender_email := se
       processing_status := "failed"
       fraud_score := 0
       is_duplicate := false
       duplicate_of := Option.none
       analysis_results := Option.none
       report_path := ""
       processed_at := env.now }, st)

/-- `process_single_claim`.  The outer `Except` models an exception
propagating out of the method — possible only when the `except` handler's
own subscripts (`email_data['id']` etc.) raise. -/
def process_single_claim (env : PipeEnv) (st : PipeState) (email : PyDict) :
    Except PyErr (ProcessingResult × PipeState) :=
  match process_try_body env st email with
  | .ok rs => .ok rs
  | .error _ => failed_result_handler env st email

/-- The duplicate verdict computed inside a `process_single_claim` run
(the stages before it are deterministic functions of the inputs). -/
def pipeline_verdict (env : PipeEnv) (st : PipeState) (email : PyDict) : DupVerdict :=
  check_duplicate env.dupThreshold env.dupAnalyze
    (.dict (env.analyze_claim
      (extract_pdf_content env (pyGet email "pdf_path" PyVal.none)) email))
    st.mem

/-!
## Concrete scenario fixtures
-/

/-- The analyzer output for the `CLM-100` scenario (both submissions
analyse to the same structured claim). -/
def scn_analysis : PyDict :=
  [("claim_number", .str "CLM-100"), ("insured_party", .str "ACME Marine"),
   ("claim_amount", .int 5000), ("loss_date", .str "2024-03-10"),
   ("loss_location", .str "Rotterdam"), ("loss_description", .str "Storm damage to hull")]

def scn_email1 : PyDict :=
  [("id", .str "e1"), ("subject", .str "Claim CLM-100"),
   ("sender_email", .str "alice@example.com"), ("pdf_path", .str "/tmp/c1.pdf")]

def scn_email2 : PyDict :=
  [("id", .str "e2"), ("subject", .str "Claim CLM-100 resubmission"),
   ("sender_email", .str "alice@example.com"), ("pdf_path", .str "/tmp/c2.pdf")]

/-- A pipeline environment for the scenario: extraction and report
rendering succeed, the registry file write succeeds, and the hosted
service replies without a json fence (as `GeminiClient.analyze_content`
does on any service failure). -/
def scn_env : PipeEnv :=
  { extract_text := fun _ => .ok "scanned claim document text"
    analyze_claim := fun _ _ => scn_analysis
    dupThreshold := default_duplicate_threshold
    dupAnalyze := fun _ => .noJsonFence "Analysis failed: key not configured"
    fraudEnv :=
      { aiResp := .noJsonFence "Analysis failed: key not configured"
        recentLoss := fun _ => false
        fraudThreshold := mkRat 7 10 }
    generate_report := fun _ => .ok "reports/claim_CLM-100.pdf"
    save_ok := true
    now := "2024-03-11T10:00:00" }

/-- The initially empty pipeline state. -/
def st0 : PipeState := { mem := [], file := [], upserts := [] }

/-!
## Claim C5 — rule-based fraud score of the five-rule input
-/

/-- The C5 input: all five rules fire. -/
def c5_claim : PyDict :=
  [("claim_amount", .int 2000000), ("loss_date", .str "unknown"),
   ("loss_location", .str "TBD")]

def c5_email : PyDict :=
  [("sender_email", .str "999999@mail.com"), ("subject", .str "URGENT claim")]

/-- C5 (counterexample): on the five-rule input the rule-based score is
`0.9`, not `1.0` — the five weights `0.3+0.2+0.1+0.2+0.1` sum to `0.9`,
so the claimed value `1.0` is impossible and the cap is not reached. -/
theorem claim5_counterexample :
    (∀ recentLoss, rule_based_fraud_detection recentLoss c5_claim c5_email =
      .ok (mkRat 9 10)) ∧ mkRat 9 10 ≠ (1 : Rat) :=
  ⟨fun _ => by with_unfolding_all rfl, by decide⟩

/-- C5 (amended): for the input with `claim_amount=2,000,000`,
`loss_date="unknown"`, `loss_location="TBD"`, `sender="999999@mail.com"`,
`subject="URGENT claim"`, all five rules fire and the rule-based fraud
score equals exactly `0.9` (the sum of the five weights; the `1.0` cap is
not reached). -/
theorem claim5_rule_score_is_nine_tenths (recentLoss : String → Bool) :
    rule_based_fraud_detection recentLoss c5_claim c5_email = .ok (mkRat 9 10) := by
  with_unfolding_all rfl

/-!
## Claim C6 — risk level as a step function of the fraud score
-/

/-- A `detect_fraud` input whose `loss_location` is an int: `.lower()`
raises inside the rule-based pass, so `detect_fraud` returns the default
analysis. -/
def c6_claim : PyDict := [("loss_location", .int 5)]

def c6_env : FraudEnv :=
  { aiResp := .noJsonFence "Analysis failed: key not configured"
    recentLoss := fun _ => false
    fraudThreshold := mkRat 7 10 }

/-- C6 (counterexample): when internal computation raises, the returned
assessment has `fraud_score = 0.5` but `risk_level = "UNKNOWN"`, while
the step function maps `0.5` to `"LOW"` — so `risk_level` is NOT the
step function of `fraud_score` on the failure path. -/
theorem claim6_counterexample :
    (detect_fraud c6_env c6_claim []).risk_level = "UNKNOWN" ∧
    (detect_fraud c6_env c6_claim []).fraud_score = mkRat 1 2 ∧
    get_risk_level (mkRat 1 2) = "LOW" ∧
    "UNKNOWN" ≠ "LOW" :=
  ⟨by with_unfolding_all rfl, by with_unfolding_all rfl,
   by with_unfolding_all rfl, by decide⟩

/-- C6 (amended): for every assessment returned by `detect_fraud`,
either the internal computation raised and the result is the fixed
default analysis (`fraud_score = 0.5`, `risk_level = "UNKNOWN"`), or
`risk_level` is the deterministic step function of `fraud_score`
(≥0.8→HIGH, ≥0.6→MEDIUM, ≥0.4→LOW, else VERY LOW). -/
theorem claim6_risk_level_step (env : FraudEnv) (claim email : PyDict) :
    detect_fraud env claim email = default_fraud_analysis ∨
    (detect_fraud env claim email).risk_level =
      get_risk_level (detect_fraud env claim email).fraud_score := by
  unfold detect_fraud
  cases h1 : rule_based_fraud_detection env.recentLoss claim email with
  | error e => simp [bind, Except.bind]
  | ok rule =>
    cases h2 : combine_fraud_scores rule (ai_based_fraud_detection env) with
    | error e => simp [bind, Except.bind, h2]
    | ok final =>
      cases h3 : extract_red_flags claim (ai_based_fraud_detection env) with
      | error e => simp [bind, Except.bind, h2, h3]
      | ok flags =>
        cases h4 : generate_fraud_recommendations env.fraudThreshold final
            (ai_based_fraud_detection env) with
        | error e => simp [bind, Except.bind, h2, h3, h4]
        | ok recs => simp [bind, Except.bind, h2, h3, h4, pure, Except.pure]

/-!
## Pipeline lemmas shared by claims C1, C2, C3 and C10
-/

theorem pyGetKey_ok_get (d : PyDict) (k : String) (v dflt : PyVal)
    (h : pyGetKey d k = .ok v) : pyGet d k dflt = v := by
  unfold pyGetKey at h
  unfold pyGet
  cases hf : d.find? (fun kv => kv.1 == k) with
  | none => rw [hf] at h; exact absurd h (by simp)
  | some kv => rw [hf] at h; simpa using h

/-- The `except` handler only ever produces a `failed` result and leaves
the state untouched. -/
theorem handler_ok_shape (env : PipeEnv) (st : PipeState) (email : PyDict)
    (r : ProcessingResult) (st' : PipeState)
    (h : failed_result_handler env st email = .ok (r, st')) :
    r.processing_status = "failed" ∧ st' = st := by
  unfold failed_result_handler at h
  cases h1 : pyGetKey email "id" with
  | error e => rw [h1] at h; simp [bind, Except.bind] at h
  | ok vi =>
    rw [h1] at h
    cases h2 : pyGetKey email "subject" with
    | error e => rw [h2] at h; simp [bind, Except.bind] at h
    | ok vs =>
      rw [h2] at h
      cases h3 : pyGetKey email "sender_email" with
      | error e => rw [h3] at h; simp [bind, Except.bind] at h
      | ok vm =>
        rw [h3] at h
        simp only [bind, Except.bind, pure, Except.pure, Except.ok.injEq,
          Prod.mk.injEq] at h
        obtain ⟨hr, hst⟩ := h
        subst hr
        exact ⟨rfl, hst.symm⟩

/-- Shape of a successful `try` body run: the result is `completed`, its
duplicate flag is the computed verdict's, a duplicate leaves the state
untouched, and a non-duplicate records exactly one registry write. -/
theorem try_body_shape (env : PipeEnv) (st : PipeState) (email : PyDict)
    (r : ProcessingResult) (st' : PipeState)
    (h : process_try_body env st email = .ok (r, st')) :
    r.processing_status = "completed" ∧
    r.is_duplicate = (pipeline_verdict env st email).is_duplicate ∧
    ((pipeline_verdict env st email).is_duplicate = true → st' = st) ∧
    ((pipeline_verdict env st email).is_duplicate = false →
      st'.upserts = st.upserts ++ [r.claim_number]) := by
  unfold process_try_body at h
  simp only [bind, Except.bind, pure, Except.pure] at h
  split at h
  · exact absurd h (by simp)
  next subj hsubj =>
    split at h
    · exact absurd h (by simp)
    next vp hpdf =>
      have hv : pipeline_verdict env st email =
          check_duplicate env.dupThreshold env.dupAnalyze
            (.dict (env.analyze_claim (extract_pdf_content env vp) email)) st.mem := by
        unfold pipeline_verdict
        rw [pyGetKey_ok_get email "pdf_path" vp PyVal.none hpdf]
      rw [hv]
      split at h
      · exact absurd h (by simp)
      next rp hrep =>
        split at h
        · exact absurd h (by simp)
        next vi hid =>
          split at h
          · exact absurd h (by simp)
          next vm hsend =>
            split at h
            · -- duplicate branch: state unchanged
              next hdup =>
                simp only [Except.ok.injEq, Prod.mk.injEq] at h
                obtain ⟨hr, hst⟩ := h
                subst hr
                refine ⟨rfl, by simpa using hdup, fun _ => hst.symm, fun hfalse => ?_⟩
                rw [hdup] at hfalse
                exact absurd hfalse (by simp)
            · -- non-duplicate branch: registry write
              next hdup =>
                split at h
                · exact absurd h (by simp)
                next mem' hset =>
                  simp only [Except.ok.injEq, Prod.mk.injEq] at h
                  obtain ⟨hr, hst⟩ := h
                  subst hr
                  have hdup' : (check_duplicate env.dupThreshold env.dupAnalyze
                      (.dict (env.analyze_claim (extract_pdf_content env vp) email))
                      st.mem).is_duplicate = false := by
                    simpa using hdup
                  refine ⟨rfl, by simp [hdup'], fun htrue => absurd htrue (by simp [hdup']),
                    fun _ => ?_⟩
                  rw [← hst]
                  unfold save_processed_claims
                  by_cases hs : env.save_ok
                  · rw [if_pos hs]
                  · rw [if_neg hs]

/-!
## Claim C1 — end-to-end duplicate scenario for two identical `CLM-100` claims
-/

set_option maxRecDepth 100000

/-- C1 (code behaviour at the failing input): submitting two claims that
both analyse to the identical `CLM-100` structure, against an initially
empty registry, the first is completed, not flagged, and written into the
registry — but the second is NOT flagged duplicate (`is_duplicate=false`,
no `duplicate_of`), because registry entries store only email metadata
(`email_id`, `subject`, ..., `analysis_summary`) and therefore can never
fingerprint- or text-match a real claim analysis. -/
theorem claim1_second_identical_claim_not_flagged :
    (process_single_claim scn_env st0 scn_email1).toOption.map
      (fun rs => (rs.1.processing_status, rs.1.is_duplicate, rs.2.upserts)) =
      some ("completed", false, [.str "CLM-100"]) ∧
    ((do
        let rs1 ← process_single_claim scn_env st0 scn_email1
        process_single_claim scn_env rs1.2 scn_email2 :
        Except PyErr (ProcessingResult × PipeState))).toOption.map
      (fun rs => (rs.1.processing_status, rs.1.is_duplicate, rs.1.duplicate_of)) =
      some ("completed", false, Option.none) :=
  ⟨by with_unfolding_all rfl, by with_unfolding_all rfl⟩

/-!
## Claim C2 — registry upsert iff non-duplicate verdict
-/

/-- An environment in which report rendering fails. -/
def c2_env : PipeEnv :=
  { scn_env with generate_report := fun _ => .error (.valueError "disk full") }

/-- C2 (counterexample): when report generation fails, the claim's
duplicate verdict has `is_duplicate=false` and yet no registry upsert is
performed — so "upsert iff verdict non-duplicate" is false as stated. -/
theorem claim2_counterexample :
    (pipeline_verdict c2_env st0 scn_email1).is_duplicate = false ∧
    (process_single_claim c2_env st0 scn_email1).toOption.map
      (fun rs => (rs.1.processing_status, rs.2.upserts)) = some ("failed", []) :=
  ⟨by with_unfolding_all rfl, by with_unfolding_all rfl⟩

/-- C2 (amended): a registry upsert is recorded for a claim if and only
if the claim completes successfully AND its duplicate verdict has
`is_duplicate=false`; in particular no registry entry is ever created for
a claim whose verdict has `is_duplicate=true`. -/
theorem claim2_upsert_iff_completed_nondup (env : PipeEnv) (st : PipeState)
    (email : PyDict) (r : ProcessingResult) (st' : PipeState)
    (h : process_single_claim env st email = .ok (r, st')) :
    st'.upserts ≠ st.upserts ↔
      (r.processing_status = "completed" ∧
        (pipeline_verdict env st email).is_duplicate = false) := by
  unfold process_single_claim at h
  cases htry : process_try_body env st email with
  | ok rs =>
    rw [htry] at h
    simp only [Except.ok.injEq] at h
    obtain ⟨hst, hcomp, hdup, htrue, hfalse⟩ :
        rs = (r, st') ∧ r.processing_status = "completed" ∧
          r.is_duplicate = (pipeline_verdict env st email).is_duplicate ∧
          ((pipeline_verdict env st email).is_duplicate = true → st' = st) ∧
          ((pipeline_verdict env st email).is_duplicate = false →
            st'.upserts = st.upserts ++ [r.claim_number]) := by
      have := try_body_shape env st email r st' (by rw [htry, h])
      exact ⟨h, this⟩
    constructor
    · intro hne
      refine ⟨hcomp, ?_⟩
      cases hv : (pipeline_verdict env st email).is_duplicate with
      | true => exact absurd (by rw [htrue hv]) hne
      | false => rfl
    · rintro ⟨-, hv⟩
      rw [hfalse hv]
      simp
  | error e =>
    rw [htry] at h
    obtain ⟨hfailed, hst⟩ := handler_ok_shape env st email r st' h
    subst hst
    constructor
    · intro hne
      exact absurd rfl hne
    · rintro ⟨hc, -⟩
      rw [hfailed] at hc
      exact absurd hc (by decide)

/-- C2 (witness for the amended theorem): a concrete run (missing
`pdf_path`, so the claim fails before its verdict) instantiates the
equivalence. -/
theorem claim2_upsert_iff_completed_nondup_witness :
    (st0.upserts ≠ st0.upserts ↔
      (ProcessingResult.processing_status
          { email_id := .str "e1", claim_number := .str "Error",
            subject := .str "Claim CLM-100", sender_email := .str "alice@example.com",
            processing_status := "failed", fraud_score := 0, is_duplicate := false,
            duplicate_of := Option.none, analysis_results := Option.none,
            report_path := "", processed_at := "2024-03-11T10:00:00" } = "completed" ∧
        (pipeline_verdict scn_env st0
          [("id", .str "e1"), ("subject", .str "Claim CLM-100"),
           ("sender_email", .str "alice@example.com")]).is_duplicate = false)) :=
  claim2_upsert_iff_completed_nondup scn_env st0
    [("id", .str "e1"), ("subject", .str "Claim CLM-100"),
     ("sender_email", .str "alice@example.com")]
    _ _ (by with_unfolding_all rfl)

/-!
## Claim C3 — persistence failure must abort the claim
-/

/-- An environment in which the registry file write fails. -/
def c3_env : PipeEnv := { scn_env with save_ok := false }

/-- C3 (code behaviour at the failing input): when the registry write
fails, `_save_processed_claims` swallows the exception; the claim is
still returned `completed`, the in-memory registry retains the entry
(the claim IS marked registered), and only the file is left behind —
persistence failure is silently ignored. -/
theorem claim3_persistence_failure_silently_ignored :
    (process_single_claim c3_env st0 scn_email1).toOption.map
      (fun rs => (rs.1.processing_status, rs.2.upserts, rs.2.mem.length, rs.2.file)) =
      some ("completed", [.str "CLM-100"], 1, []) := by
  with_unfolding_all rfl

/-!
## Claim C10 — totality and failure shape of `process_single_claim`
-/

/-- C10: over inputs containing `id`, `subject`, `sender_email` and
`pdf_path`, `process_single_claim` never propagates an exception, and
every non-`completed` outcome is exactly the sentinel failure result
(`claim_number='Error'`, `fraud_score=0.0`, `is_duplicate=false`,
`duplicate_of=None`, empty `analysis_results`, empty `report_path`). -/
theorem claim10_totality_and_failure_shape (env : PipeEnv) (st : PipeState)
    (email : PyDict) (vi vs vm vp : PyVal)
    (hid : pyGetKey email "id" = .ok vi)
    (hsubj : pyGetKey email "subject" = .ok vs)
    (hsend : pyGetKey email "sender_email" = .ok vm)
    (hpdf : pyGetKey email "pdf_path" = .ok vp) :
    ∃ r st', process_single_claim env st email = .ok (r, st') ∧
      (r.processing_status = "completed" ∨
        r = { email_id := vi, claim_number := .str "Error", subject := vs,
              sender_email := vm, processing_status := "failed", fraud_score := 0,
              is_duplicate := false, duplicate_of := Option.none,
              analysis_results := Option.none, report_path := "",
              processed_at := env.now }) := by
  unfold process_single_claim
  cases htry : process_try_body env st email with
  | ok rs =>
    refine ⟨rs.1, rs.2, rfl, Or.inl ?_⟩
    exact (try_body_shape env st email rs.1 rs.2 (by rw [htry])).1
  | error e =>
    refine ⟨_, st, ?_, Or.inr rfl⟩
    unfold failed_result_handler
    rw [hid, hsubj, hsend]
    rfl

/-- C10 (witness): the concrete scenario run instantiates totality. -/
theorem claim10_totality_and_failure_shape_witness :
    ∃ r st', process_single_claim scn_env st0 scn_email1 = .ok (r, st') ∧
      (r.processing_status = "completed" ∨
        r = { email_id := .str "e1", claim_number := .str "Error",
              subject := .str "Claim CLM-100",
              sender_email := .str "alice@example.com",
              processing_status := "failed", fraud_score := 0,
              is_duplicate := false, duplicate_of := Option.none,
              analysis_results := Option.none, report_path := "",
              processed_at := scn_env.now }) :=
  claim10_totality_and_failure_shape scn_env st0 scn_email1
    (.str "e1") (.str "Claim CLM-100") (.str "alice@example.com")
    (.str "/tmp/c1.pdf") (by with_unfolding_all rfl) (by with_unfolding_all rfl)
    (by with_unfolding_all rfl) (by with_unfolding_all rfl)

/-!
## Claim C8 — failure policy of `check_duplicate`
-/

/-- A current claim whose `claim_number` is an int: `'|'.join` raises
`TypeError` inside the EXACT pass. -/
def c8_cur : PyVal := .dict
  [("claim_number", .int 7), ("insured_party", .str "ACME"),
   ("claim_amount", .int 5000), ("loss_date", .str "2024-03-10"),
   ("loss_location", .str "Rotterdam"), ("loss_description", .str "storm damage")]

/-- A registry entry with the identical claim text (its `claim_number` is
the string `"7"`, which `str()` renders identically), so the fuzzy pass
alone finds a perfect match. -/
def c8_entry : PyVal := .dict
  [("claim_number", .str "7"), ("insured_party", .str "ACME"),
   ("claim_amount", .int 5000), ("loss_date", .str "2024-03-10"),
   ("loss_location", .str "Rotterdam"), ("loss_description", .str "storm damage")]

def c8_reg : Registry := [(.str "K1", c8_entry)]

def c8_analyze : String → AiResp := fun _ => .noJsonFence "Analysis failed"

/-- C8 (counterexample): an exception inside the EXACT pass is NOT
confined to that pass: the fuzzy pass alone would contribute a perfect
candidate, yet the whole check aborts into the failure dict with no
matches at all — contradicting "that pass contributes zero candidates
while the other passes still contribute theirs". -/
theorem claim8_counterexample :
    (check_duplicate default_duplicate_threshold c8_analyze c8_cur c8_reg).error =
      some "sequence item: expected str instance" ∧
    (check_duplicate default_duplicate_threshold c8_analyze c8_cur c8_reg).is_duplicate =
      false ∧
    (check_duplicate default_duplicate_threshold c8_analyze c8_cur c8_reg).all_matches =
      Option.none ∧
    check_similar_matches default_duplicate_threshold c8_cur c8_reg =
      .ok [⟨.str "K1", "similar", .float 1, .list [.str "claim_content"]⟩] :=
  ⟨by with_unfolding_all rfl, by with_unfolding_all rfl,
   by with_unfolding_all rfl, by with_unfolding_all rfl⟩

theorem combine_ok_error_none (l : List MatchCand) (v : DupVerdict)
    (h : combine_duplicate_results l = .ok v) : v.error = Option.none := by
  unfold combine_duplicate_results at h
  cases l with
  | nil =>
    simp only [Except.ok.injEq] at h
    rw [← h]
  | cons m0 rest =>
    simp only [bind, Except.bind] at h
    split at h
    · simp at h
    · simp only [pure, Except.pure, Except.ok.injEq] at h
      rw [← h]

/-- C8 (amended): `check_duplicate` never raises.  An exception escaping
the AI pass is caught inside that pass and is observably equivalent to
the service reporting no matches (the other passes still contribute).
An exception in the exact pass (or in the final `max`) instead aborts
the whole check, which returns the failure dict
`is_duplicate=false, confidence=0.0, error=<message>` with no match data. -/
theorem claim8_error_policy (threshold : Rat) (analyze : String → AiResp)
    (cur : PyVal) (reg : Registry) :
    ((check_duplicate threshold analyze cur reg).error = Option.none ∨
      ((check_duplicate threshold analyze cur reg).is_duplicate = false ∧
        (check_duplicate threshold analyze cur reg).confidence = .float 0 ∧
        (check_duplicate threshold analyze cur reg).all_matches = Option.none)) ∧
    (analyze (build_duplicate_prompt cur (ai_sample reg)) = .raises →
      check_duplicate threshold analyze cur reg =
        check_duplicate threshold
          (fun _ => .json (.dict [("matches", .list [])])) cur reg) := by
  constructor
  · unfold check_duplicate
    by_cases hre : reg.isEmpty
    · rw [if_pos hre]
      exact Or.inl rfl
    · rw [if_neg hre]
      split
      · next v hv =>
        left
        simp only [bind, Except.bind] at hv
        split at hv
        · simp at hv
        next ex hex =>
          split at hv
          · simp at hv
          next sim hsim => exact combine_ok_error_none _ v hv
      · next e he => exact Or.inr ⟨rfl, rfl, rfl⟩
  · intro hra
    have e1 : ai_duplicate_check analyze cur reg = [] := by
      unfold ai_duplicate_check
      rw [hra]
    have e2 : ai_duplicate_check
        (fun _ => AiResp.json (.dict [("matches", .list [])])) cur reg = [] := rfl
    unfold check_duplicate
    rw [e1, e2]

/-- C8 (witness for the amended theorem), at a run whose AI pass raises. -/
theorem claim8_error_policy_witness :
    ((check_duplicate default_duplicate_threshold (fun _ => AiResp.raises)
        c8_cur c8_reg).error = Option.none ∨
      ((check_duplicate default_duplicate_threshold (fun _ => AiResp.raises)
          c8_cur c8_reg).is_duplicate = false ∧
        (check_duplicate default_duplicate_threshold (fun _ => AiResp.raises)
          c8_cur c8_reg).confidence = .float 0 ∧
        (check_duplicate default_duplicate_threshold (fun _ => AiResp.raises)
          c8_cur c8_reg).all_matches = Option.none)) ∧
    check_duplicate default_duplicate_threshold (fun _ => AiResp.raises) c8_cur c8_reg =
      check_duplicate default_duplicate_threshold
        (fun _ => .json (.dict [("matches", .list [])])) c8_cur c8_reg :=
  ⟨(claim8_error_policy _ _ _ _).1, (claim8_error_policy _ _ _ _).2 rfl⟩

/-!
## Claim C9 — the AI pass: 10-entry cap, id validation, fail-open parse
-/

theorem ai_fold_mem (reg : Registry) :
    ∀ (items : List PyVal) (acc l : List MatchCand),
      (∀ m ∈ acc, ∃ kv ∈ reg, pyEq m.claim_id kv.1 = true) →
      (items.foldlM
        (fun acc it => do
          let cid ← pyGetE it "claim_id" PyVal.none
          let mem ← pyInRegistry cid reg
          if mem then do
            let conf ← pyGetE it "confidence" (.float (mkRat 7 10))
            let mf ← pyGetE it "matching_fields" (.list [.str "ai_analysis"])
            pure (acc ++ [(⟨cid, "ai_detected", conf, mf⟩ : MatchCand)])
          else
            pure acc)
        acc : Except PyErr (List MatchCand)) = .ok l →
      ∀ m ∈ l, ∃ kv ∈ reg, pyEq m.claim_id kv.1 = true := by
  intro items
  induction items with
  | nil =>
    intro acc l hacc h
    simp only [List.foldlM_nil, pure, Except.pure, Except.ok.injEq] at h
    rw [← h]
    exact hacc
  | cons it rest ih =>
    intro acc l hacc h
    rw [List.foldlM_cons] at h
    simp only [bind, Except.bind] at h
    split at h
    · simp at h
    next acc2 hstep =>
      split at hstep
      · simp at hstep
      next cid hcid =>
        split at hstep
        · simp at hstep
        next mem hmem =>
          split at hstep
          · next hmemT =>
            split at hstep
            · simp at hstep
            next conf hconf =>
              split at hstep
              · simp at hstep
              next mf hmf =>
                simp only [pure, Except.pure, Except.ok.injEq] at hstep
                subst hstep
                refine ih _ l ?_ h
                intro m hm
                rcases List.mem_append.mp hm with hm | hm
                · exact hacc m hm
                · rcases List.mem_singleton.mp hm with rfl
                  have hcid2 : reg.any (fun kv => pyEq cid kv.1) = true := by
                    subst hmemT
                    unfold pyInRegistry at hmem
                    cases cid <;> simp_all
                  rcases List.any_eq_true.mp hcid2 with ⟨kv, hkv, hpe⟩
                  exact ⟨kv, hkv, hpe⟩
          · next hmemF =>
            simp only [pure, Except.pure, Except.ok.injEq] at hstep
            subst hstep
            exact ih _ l hacc h

theorem parse_ai_mem (resp : AiResp) (reg : Registry) :
    ∀ m ∈ parse_ai_duplicate_result resp reg,
      ∃ kv ∈ reg, pyEq m.claim_id kv.1 = true := by
  unfold parse_ai_duplicate_result
  split
  · next l heq =>
    simp only [bind, Except.bind, pure, Except.pure] at heq
    cases resp with
    | raises => simp at heq
    | badJson raw => simp at heq
    | noJsonFence raw =>
      simp only at heq
      exact ai_fold_mem reg _ [] l (by simp) (by simpa using heq)
    | json v =>
      simp only at heq
      split at heq
      · simp at heq
      next ms hms =>
        split at heq
        · simp at heq
        next items hitems => exact ai_fold_mem reg items [] l (by simp) heq
  · simp

/-- C9: (a) the registry sample delegated to the external service is
exactly its first 10 entries, and the AI pass consults the service only
on the prompt built from that sample; (b) every candidate it returns has
a `claim_id` equal to some key of the (full) registry — unknown ids are
discarded silently; (c) on parse failure (no json fence, or undecodable
fence) the pass contributes the empty sequence. -/
theorem claim9_ai_pass_cap_validate_failopen :
    (∀ reg : Registry, ai_sample reg = reg.take 10) ∧
    (∀ (f g : String → AiResp) (cur : PyVal) (reg : Registry),
      f (build_duplicate_prompt cur (ai_sample reg)) =
        g (build_duplicate_prompt cur (ai_sample reg)) →
      ai_duplicate_check f cur reg = ai_duplicate_check g cur reg) ∧
    (∀ (f : String → AiResp) (cur : PyVal) (reg : Registry),
      ∀ m ∈ ai_duplicate_check f cur reg, ∃ kv ∈ reg, pyEq m.claim_id kv.1 = true) ∧
    (∀ (raw : String) (reg : Registry),
      parse_ai_duplicate_result (.badJson raw) reg = [] ∧
      parse_ai_duplicate_result (.noJsonFence raw) reg = []) := by
  refine ⟨?_, ?_, ?_, ?_⟩
  · intro reg
    unfold ai_sample
    by_cases h : 10 < reg.length
    · rw [if_pos h]
    · rw [if_neg h]
      exact (List.take_of_length_le (by omega)).symm
  · intro f g cur reg h
    unfold ai_duplicate_check
    rw [h]
  · intro f cur reg m hm
    unfold ai_duplicate_check at hm
    cases hr : f (build_duplicate_prompt cur (ai_sample reg)) with
    | raises => rw [hr] at hm; simp at hm
    | noJsonFence raw => rw [hr] at hm; exact parse_ai_mem _ reg m hm
    | badJson raw => rw [hr] at hm; exact parse_ai_mem _ reg m hm
    | json v => rw [hr] at hm; exact parse_ai_mem _ reg m hm
  · intro raw reg
    exact ⟨rfl, rfl⟩

/-- C9 (witness): a service reply naming the known id `"K1"` (accepted)
instantiates the validation property, and two extensionally equal reply
functions instantiate the delegation property. -/
theorem claim9_ai_pass_witness :
    (∃ kv ∈ c8_reg,
      pyEq (MatchCand.claim_id
        ⟨.str "K1", "ai_detected", .float (mkRat 9 10), .list [.str "ai_analysis"]⟩)
        kv.1 = true) ∧
    ai_duplicate_check (fun _ => AiResp.noJsonFence "x") (.dict []) c8_reg =
      ai_duplicate_check (fun _ => AiResp.noJsonFence "x") (.dict []) c8_reg := by
  constructor
  · refine claim9_ai_pass_cap_validate_failopen.2.2.1
      (fun _ => AiResp.json (.dict [("matches",
        .list [.dict [("claim_id", .str "K1"), ("confidence", .float (mkRat 9 10))]])]))
      (.dict []) c8_reg _ ?_
    rw [(by with_unfolding_all rfl :
      ai_duplicate_check (fun _ => AiResp.json (.dict [("matches",
        .list [.dict [("claim_id", .str "K1"), ("confidence", .float (mkRat 9 10))]])]))
        (.dict []) c8_reg =
      [⟨.str "K1", "ai_detected", .float (mkRat 9 10), .list [.str "ai_analysis"]⟩])]
    exact List.mem_singleton.mpr rfl
  · exact claim9_ai_pass_cap_validate_failopen.2.1 _ _ (.dict []) c8_reg rfl

/-!
## Claim C4 — verdict invariant and highest-confidence selection
-/

/-- The numeric value of a candidate's confidence (all code-produced
confidences are floats; AI-supplied ones may be arbitrary JSON). -/
def confQ (m : MatchCand) : Rat := (pyNum? m.confidence).getD 0

/-- All confidences in the list are numeric (so Python's `max` compares
them without raising). -/
def NumericConfs (l : List MatchCand) : Prop :=
  ∀ m ∈ l, (pyNum? m.confidence).isSome = true

/-- `b` is the first candidate of maximal confidence in `all` — the
selection the claim specifies, stated independently of the fold that
implements it. -/
def IsFirstMax (all : List MatchCand) (b : MatchCand) : Prop :=
  (∃ pre post, all = pre ++ b :: post ∧ ∀ m ∈ pre, confQ m < confQ b) ∧
  ∀ m ∈ all, confQ m ≤ confQ b

theorem pyGt_num (x y : PyVal) (qx qy : Rat)
    (hx : pyNum? x = some qx) (hy : pyNum? y = some qy) :
    pyGt x y = .ok (decide (qy < qx)) := by
  cases x <;> cases y <;> simp_all [pyGt, pyNum?]

/-- Python's `max(..., key=...)` fold: with numeric keys it never raises
and returns the first maximal element. -/
theorem max_fold_spec :
    ∀ (l processed : List MatchCand) (b : MatchCand),
      NumericConfs (processed ++ l) →
      IsFirstMax processed b →
      ∃ best,
        (l.foldlM
          (fun b m => do
            let g ← pyGt m.confidence b.confidence
            pure (if g then m else b)) b :
          Except PyErr MatchCand) = .ok best ∧
        IsFirstMax (processed ++ l) best := by
  intro l
  induction l with
  | nil =>
    intro processed b hnum hfm
    exact ⟨b, rfl, by simpa using hfm⟩
  | cons m rest ih =>
    intro processed b hnum hfm
    have hbmem : b ∈ processed := by
      obtain ⟨⟨pre, post, hsplit, -⟩, -⟩ := hfm
      rw [hsplit]
      exact List.mem_append.mpr (Or.inr (List.mem_cons_self b post))
    obtain ⟨qb, hqb⟩ := Option.isSome_iff_exists.mp
      (hnum b (List.mem_append.mpr (Or.inl hbmem)))
    obtain ⟨qm, hqm⟩ := Option.isSome_iff_exists.mp
      (hnum m (List.mem_append.mpr (Or.inr (List.mem_cons_self m rest))))
    have hgt := pyGt_num m.confidence b.confidence qm qb hqm hqb
    have hcb : confQ b = qb := by unfold confQ; rw [hqb]; rfl
    have hcm : confQ m = qm := by unfold confQ; rw [hqm]; rfl
    rw [List.foldlM_cons]
    simp only [bind, Except.bind, hgt, pure, Except.pure]
    by_cases hlt : qb < qm
    · simp only [decide_eq_true hlt, if_true]
      have hnum' : NumericConfs ((processed ++ [m]) ++ rest) := by
        intro x hx
        apply hnum
        simp only [List.append_assoc, List.singleton_append] at hx ⊢
        exact hx
      have hfm' : IsFirstMax (processed ++ [m]) m := by
        refine ⟨⟨processed, [], rfl, ?_⟩, ?_⟩
        · intro x hx
          calc confQ x ≤ confQ b := hfm.2 x hx
            _ < confQ m := by rw [hcb, hcm]; exact hlt
        · intro x hx
          rcases List.mem_append.mp hx with hx | hx
          · exact le_of_lt (lt_of_le_of_lt (hfm.2 x hx) (by rw [hcb, hcm]; exact hlt))
          · rcases List.mem_singleton.mp hx with rfl
            exact le_refl _
      obtain ⟨best, hfold, hbest⟩ := ih (processed ++ [m]) m hnum' hfm'
      refine ⟨best, hfold, ?_⟩
      rw [show processed ++ m :: rest = (processed ++ [m]) ++ rest by simp]
      exact hbest
    · simp only [decide_eq_false hlt, if_false]
      have hnum' : NumericConfs ((processed ++ [m]) ++ rest) := by
        intro x hx
        apply hnum
        simp only [List.append_assoc, List.singleton_append] at hx ⊢
        exact hx
      have hfm' : IsFirstMax (processed ++ [m]) b := by
        obtain ⟨⟨pre, post, hsplit, hpre⟩, hall⟩ := hfm
        refine ⟨⟨pre, post ++ [m], by rw [hsplit]; simp, hpre⟩, ?_⟩
        intro x hx
        rcases List.mem_append.mp hx with hx | hx
        · exact hall x hx
        · rcases List.mem_singleton.mp hx with rfl
          rw [hcb, hcm]
          exact le_of_not_lt hlt
      obtain ⟨best, hfold, hbest⟩ := ih (processed ++ [m]) b hnum' hfm'
      refine ⟨best, hfold, ?_⟩
      rw [show processed ++ m :: rest = (processed ++ [m]) ++ rest by simp]
      exact hbest

theorem combine_ok_inv (l : List MatchCand) (v : DupVerdict)
    (h : combine_duplicate_results l = .ok v) :
    (v.is_duplicate = true ↔ 0 < v.total_matches_found.getD 0) := by
  unfold combine_duplicate_results at h
  cases l with
  | nil =>
    simp only [Except.ok.injEq] at h
    rw [← h]
    simp
  | cons m0 rest =>
    simp only [bind, Except.bind] at h
    split at h
    · simp at h
    · simp only [pure, Except.pure, Except.ok.injEq] at h
      rw [← h]
      simp

/-- C4: for every verdict of `check_duplicate`, `is_duplicate` holds iff
`total_matches_found` (absent read as 0, as `.get` does) is positive; and
whenever the passes produce a nonempty concatenated candidate list with
numeric confidences, the verdict selects the candidate of maximum
confidence, ties broken by input order — exact-pass candidates first,
then fuzzy, then AI — reporting its `claim_id`, `confidence` and
`match_type`, and the total count. -/
theorem claim4_verdict_invariant_and_selection (threshold : Rat)
    (analyze : String → AiResp) (cur : PyVal) (reg : Registry) :
    ((check_duplicate threshold analyze cur reg).is_duplicate = true ↔
      0 < (check_duplicate threshold analyze cur reg).total_matches_found.getD 0) ∧
    (∀ exact simil,
      check_exact_matches cur reg = .ok exact →
      check_similar_matches threshold cur reg = .ok simil →
      reg ≠ [] →
      NumericConfs (exact ++ simil ++ ai_duplicate_check analyze cur reg) →
      exact ++ simil ++ ai_duplicate_check analyze cur reg ≠ [] →
      ∃ best,
        IsFirstMax (exact ++ simil ++ ai_duplicate_check analyze cur reg) best ∧
        (check_duplicate threshold analyze cur reg).is_duplicate = true ∧
        (check_duplicate threshold analyze cur reg).duplicate_of =
          some best.claim_id ∧
        (check_duplicate threshold analyze cur reg).confidence =
          best.confidence ∧
        (check_duplicate threshold analyze cur reg).match_type =
          some best.match_type ∧
        (check_duplicate threshold analyze cur reg).total_matches_found =
          some (exact ++ simil ++ ai_duplicate_check analyze cur reg).length) := by
  constructor
  · unfold check_duplicate
    by_cases hre : reg.isEmpty
    · rw [if_pos hre]
      simp
    · rw [if_neg hre]
      split
      · next v hv =>
        simp only [bind, Except.bind] at hv
        split at hv
        · simp at hv
        next ex hex =>
          split at hv
          · simp at hv
          next sim hsim => exact combine_ok_inv _ v hv
      · next e he => simp
  · intro exact simil h1 h2 hne hnum hall
    have hre : reg.isEmpty = false := by
      cases reg with
      | nil => exact absurd rfl hne
      | cons kv rest => rfl
    unfold check_duplicate
    rw [hre]
    simp only [Bool.false_eq_true, if_false, bind, Except.bind, h1, h2]
    cases hl : exact ++ simil ++ ai_duplicate_check analyze cur reg with
    | nil => exact absurd hl hall
    | cons m0 rest =>
      have hnum' : NumericConfs ([m0] ++ rest) := by
        rw [← List.singleton_append] at hl
        rw [hl] at hnum
        exact hnum
      have hfm0 : IsFirstMax [m0] m0 := ⟨⟨[], [], rfl, by simp⟩, by simp⟩
      obtain ⟨best, hfold, hbest⟩ := max_fold_spec rest [m0] m0 hnum' hfm0
      have hc : combine_duplicate_results (m0 :: rest) = .ok
          { is_duplicate := true
            confidence := best.confidence
            duplicate_of := some best.claim_id
            match_type := some best.match_type
            matchesKey := Option.none
            all_matches := some (m0 :: rest)
            total_matches_found := some (m0 :: rest).length
            error := Option.none } := by
        unfold combine_duplicate_results
        dsimp only
        rw [hfold]
        rfl
      rw [hc]
      exact ⟨best, by simpa using hbest, rfl, rfl, rfl, rfl, rfl⟩

/-- Fixtures for the C4 witness: an identical claim against a one-entry
registry whose value is the same claim dict, so the exact pass
(confidence 1.0) and the fuzzy pass (similarity 1.0) both fire. -/
def c4w_reg : Registry := [(.str "K", .dict scn_analysis)]

def c4w_analyze : String → AiResp := fun _ => .noJsonFence "x"

def c4w_exact : List MatchCand :=
  [⟨.str "K", "exact", .float 1, .list [.str "full_claim_fingerprint"]⟩]

def c4w_simil : List MatchCand :=
  [⟨.str "K", "similar", .float 1, .list [.str "claim_content"]⟩]

theorem c4w_ai_nil :
    ai_duplicate_check c4w_analyze (.dict scn_analysis) c4w_reg = [] := by
  with_unfolding_all rfl

/-- C4 (witness): the verdict selects the exact-pass candidate (first in
input order among the two maximal candidates). -/
theorem claim4_witness :
    ∃ best,
      IsFirstMax (c4w_exact ++ c4w_simil ++
        ai_duplicate_check c4w_analyze (.dict scn_analysis) c4w_reg) best ∧
      (check_duplicate default_duplicate_threshold c4w_analyze
        (.dict scn_analysis) c4w_reg).is_duplicate = true ∧
      (check_duplicate default_duplicate_threshold c4w_analyze
        (.dict scn_analysis) c4w_reg).duplicate_of = some best.claim_id ∧
      (check_duplicate default_duplicate_threshold c4w_analyze
        (.dict scn_analysis) c4w_reg).confidence = best.confidence ∧
      (check_duplicate default_duplicate_threshold c4w_analyze
        (.dict scn_analysis) c4w_reg).match_type = some best.match_type ∧
      (check_duplicate default_duplicate_threshold c4w_analyze
        (.dict scn_analysis) c4w_reg).total_matches_found =
        some (c4w_exact ++ c4w_simil ++
          ai_duplicate_check c4w_analyze (.dict scn_analysis) c4w_reg).length :=
  (claim4_verdict_invariant_and_selection default_duplicate_threshold
    c4w_analyze (.dict scn_analysis) c4w_reg).2
    c4w_exact c4w_simil
    (by with_unfolding_all rfl) (by with_unfolding_all rfl)
    (by simp [c4w_reg])
    (by
      intro m hm
      rw [c4w_ai_nil, List.append_nil] at hm
      rcases List.mem_append.mp hm with hm | hm
      · rcases List.mem_singleton.mp hm with rfl
        rfl
      · rcases List.mem_singleton.mp hm with rfl
        rfl)
    (by rw [c4w_ai_nil, List.append_nil]; simp [c4w_exact, c4w_simil])

/-!
## Claim C7 — similarity: reflexivity, range, and (a)symmetry

The range bound follows from `matchTotalF_le` (the matched total never
exceeds either sequence's length); reflexivity needs the diagonal
analysis of the dynamic programme, developed below.
-/

namespace SeqMatch

/-- The matched total is bounded by both region lengths. -/
theorem matchTotalF_le (a b : List Char) :
    ∀ (fuel alo ahi blo bhi : Nat), alo ≤ ahi → blo ≤ bhi →
      matchTotalF a b fuel alo ahi blo bhi ≤ min (ahi - alo) (bhi - blo) := by
  intro fuel
  induction fuel with
  | zero => intro alo ahi blo bhi _ _; simp [matchTotalF]
  | succ fuel ih =>
    intro alo ahi blo bhi hab hbb
    have hb := flm_bounds a b alo ahi blo bhi hab hbb
    unfold matchTotalF
    cases hm : find_longest_match a b alo ahi blo bhi with
    | mk bi bj k =>
      rw [hm] at hb
      obtain ⟨b1, b2, b3, b4⟩ := hb
      dsimp only at b1 b2 b3 b4 ⊢
      by_cases hk : k = 0
      · rw [if_pos hk]
        exact Nat.zero_le _
      · rw [if_neg hk]
        have hleft : (if alo < bi ∧ blo < bj then matchTotalF a b fuel alo bi blo bj
            else 0) ≤ min (bi - alo) (bj - blo) := by
          split
          · next h => exact ih alo bi blo bj (le_of_lt h.1) (le_of_lt h.2)
          · exact Nat.zero_le _
        have hright : (if bi + k < ahi ∧ bj + k < bhi then
            matchTotalF a b fuel (bi + k) ahi (bj + k) bhi else 0) ≤
            min (ahi - (bi + k)) (bhi - (bj + k)) := by
          split
          · next h => exact ih (bi + k) ahi (bj + k) bhi (le_of_lt h.1) (le_of_lt h.2)
          · exact Nat.zero_le _
        omega

/-- 0 ≤ ratio ≤ 1. -/
theorem ratioVal_mem_unit (x y : String) :
    0 ≤ ratioVal x y ∧ ratioVal x y ≤ 1 := by
  unfold ratioVal
  by_cases hT : x.data.length + y.data.length = 0
  · rw [if_pos hT]
    norm_num
  · rw [if_neg hT]
    have hM : match_total x.data y.data 0 x.data.length 0 y.data.length ≤
        min (x.data.length - 0) (y.data.length - 0) :=
      matchTotalF_le x.data y.data (x.data.length - 0 + 1) 0 x.data.length 0
        y.data.length (Nat.zero_le _) (Nat.zero_le _)
    have hTpos : (0 : Rat) < ((x.data.length + y.data.length : Nat) : Rat) := by
      have : 0 < x.data.length + y.data.length := Nat.pos_of_ne_zero hT
      exact_mod_cast this
    constructor
    · apply div_nonneg _ (le_of_lt hTpos)
      positivity
    · rw [div_le_one hTpos]
      have h2M : 2 * match_total x.data y.data 0 x.data.length 0 y.data.length ≤
          x.data.length + y.data.length := by omega
      exact_mod_cast h2M

/-!
### The diagonal analysis of `find_longest_match` on identical inputs

`chain t lo hi i j` is the value that row `i` of the dynamic programme
(running on `a = b = t` over the aligned region `[lo, hi)`) stores at
column `j`: the length of the run of in-range candidate columns ending at
`(i, j)`.  The key facts are that every chain is dominated by a chain on
the main diagonal (`chain_le_diag_left` / `chain_le_diag_right`), whence
the running best match always stays diagonal.
-/

/-- Column `j` is a DP candidate at row `i` (it survives the
`b2j`/`blo`/`bhi` filters) — for `a = b = t`, region `[lo, hi)`. -/
def candB (t : List Char) (lo hi i j : Nat) : Bool :=
  (b2j t (t.getD i ' ')).contains j && decide (lo ≤ j) && decide (j < hi)

/-- The chain value at `(i, j)` (rows below `lo` hold nothing). -/
def chain (t : List Char) (lo hi : Nat) : Nat → Nat → Nat
  | 0, j => if lo = 0 ∧ candB t lo hi 0 j then 1 else 0
  | i + 1, j =>
    if i + 1 < lo then 0
    else if candB t lo hi (i + 1) j then
      (if i + 1 = lo ∨ j = 0 then 0 else chain t lo hi i (j - 1)) + 1
    else 0

theorem chain_unfold (t : List Char) (lo hi i j : Nat) :
    chain t lo hi i j =
      if i < lo then 0
      else if candB t lo hi i j then
        (if i = lo ∨ j = 0 then 0 else chain t lo hi (i - 1) (j - 1)) + 1
      else 0 := by
  cases i with
  | zero =>
    by_cases hlo : lo = 0
    · subst hlo
      by_cases hc : candB t 0 hi 0 j
      · simp [chain, hc]
      · simp [chain, hc]
    · have h0 : 0 < lo := Nat.pos_of_ne_zero hlo
      simp [chain, hlo, h0]
  | succ i => simp [chain]

theorem mem_b2j_iff (t : List Char) (c : Char) (j : Nat) :
    j ∈ b2j t c ↔ j < t.length ∧ t.getD j ' ' = c ∧ isPopular t c = false := by
  unfold b2j
  by_cases hp : isPopular t c
  · simp [hp]
  · rw [if_neg hp]
    unfold occurrences
    simp only [List.mem_filter, List.mem_range, beq_iff_eq]
    constructor
    · rintro ⟨h1, h2⟩
      exact ⟨h1, h2, by simpa using hp⟩
    · rintro ⟨h1, h2, -⟩
      exact ⟨h1, h2⟩

theorem candB_iff (t : List Char) (lo hi i j : Nat) :
    candB t lo hi i j = true ↔
      (j ∈ b2j t (t.getD i ' ') ∧ lo ≤ j ∧ j < hi) := by
  unfold candB
  simp only [Bool.and_eq_true, decide_eq_true_eq, List.elem_iff]
  tauto

theorem candB_lo_le (t : List Char) (lo hi i j : Nat)
    (h : candB t lo hi i j = true) : lo ≤ j ∧ j < hi := by
  unfold candB at h
  simp only [Bool.and_eq_true, decide_eq_true_eq] at h
  exact ⟨h.1.2, h.2⟩

/-- A candidate at `(i, j)` means `t[j] = t[i]` with a non-popular char. -/
theorem candB_char_eq (t : List Char) (lo hi i j : Nat)
    (h : candB t lo hi i j = true) :
    j < t.length ∧ t.getD j ' ' = t.getD i ' ' ∧
      isPopular t (t.getD i ' ') = false := by
  unfold candB at h
  simp only [Bool.and_eq_true, decide_eq_true_eq] at h
  exact (mem_b2j_iff t (t.getD i ' ') j).mp (List.elem_iff.mp h.1.1)

/-- A candidate at `(i, j)` yields the diagonal candidate at `(j, j)`. -/
theorem candB_diag_col (t : List Char) (lo hi i j : Nat)
    (h : candB t lo hi i j = true) : candB t lo hi j j = true := by
  obtain ⟨hjlen, hchar, hpop⟩ := candB_char_eq t lo hi i j h
  obtain ⟨hjlo, hjhi⟩ := candB_lo_le t lo hi i j h
  unfold candB
  simp only [Bool.and_eq_true, decide_eq_true_eq]
  refine ⟨⟨?_, hjlo⟩, hjhi⟩
  rw [show ((b2j t (t.getD j ' ')).contains j = true) ↔ j ∈ b2j t (t.getD j ' ')
    from List.elem_iff, mem_b2j_iff]
  rw [hchar]
  exact ⟨hjlen, rfl, hpop⟩

/-- A candidate at `(i, j)` with `i` in range yields the diagonal
candidate at `(i, i)`. -/
theorem candB_diag_row (t : List Char) (lo hi i j : Nat)
    (h : candB t lo hi i j = true) (hilo : lo ≤ i) (hihi : i < hi)
    (hlen : hi ≤ t.length) : candB t lo hi i i = true := by
  obtain ⟨hjlen, hchar, hpop⟩ := candB_char_eq t lo hi i j h
  unfold candB
  simp only [Bool.and_eq_true, decide_eq_true_eq]
  refine ⟨⟨?_, hilo⟩, hihi⟩
  rw [show ((b2j t (t.getD i ' ')).contains i = true) ↔ i ∈ b2j t (t.getD i ' ')
    from List.elem_iff, mem_b2j_iff]
  exact ⟨lt_of_lt_of_le hihi hlen, rfl, hpop⟩

theorem chain_zero_of_col_lt_lo (t : List Char) (lo hi i j : Nat)
    (hj : j < lo) : chain t lo hi i j = 0 := by
  rw [chain_unfold]
  split
  · rfl
  next h1 =>
    split
    · next h2 =>
      obtain ⟨hjlo, -⟩ := candB_lo_le t lo hi i j h2
      omega
    · rfl

theorem chain_pos_of_cand (t : List Char) (lo hi i j : Nat)
    (h : candB t lo hi i j = true) (hilo : lo ≤ i) :
    1 ≤ chain t lo hi i j := by
  rw [chain_unfold]
  rw [if_neg (by omega), if_pos h]
  omega

/-- Chains left of the diagonal are dominated by the diagonal chain in
their own column. -/
theorem chain_le_diag_left (t : List Char) (lo hi : Nat) :
    ∀ (i j : Nat), j ≤ i → chain t lo hi i j ≤ chain t lo hi j j
  | i, j, hji => by
    by_cases hji2 : j = i
    · subst hji2; exact le_rfl
    have hlt : j < i := lt_of_le_of_ne hji (fun h => hji2 h)
    rw [chain_unfold]
    split
    · exact Nat.zero_le _
    next h1 =>
      split
      · next h2 =>
        have hcjj := candB_diag_col t lo hi i j h2
        obtain ⟨hjlo, hjhi⟩ := candB_lo_le t lo hi i j h2
        split
        · next h3 =>
          rcases h3 with h3 | h3
          · omega
          · subst h3
            have : 1 ≤ chain t lo hi 0 0 := chain_pos_of_cand t lo hi 0 0 hcjj (by omega)
            omega
        · next h3 =>
          push_neg at h3
          obtain ⟨hilo, hj0⟩ := h3
          have ihc := chain_le_diag_left t lo hi (i - 1) (j - 1) (by omega)
          by_cases hjlo2 : j = lo
          · have hz : chain t lo hi (i - 1) (j - 1) = 0 :=
              chain_zero_of_col_lt_lo t lo hi (i - 1) (j - 1) (by omega)
            have hpos : 1 ≤ chain t lo hi j j :=
              chain_pos_of_cand t lo hi j j hcjj (by omega)
            omega
          · have hexp : chain t lo hi j j = chain t lo hi (j - 1) (j - 1) + 1 := by
              rw [chain_unfold]
              rw [if_neg (by omega), if_pos hcjj, if_neg (by omega)]
            omega
      · exact Nat.zero_le _
termination_by i j => i
decreasing_by omega

/-- Chains right of the diagonal are dominated by the diagonal chain in
their own row. -/
theorem chain_le_diag_right (t : List Char) (lo hi : Nat) (hlen : hi ≤ t.length) :
    ∀ (i j : Nat), i ≤ j → lo ≤ i → i < hi → chain t lo hi i j ≤ chain t lo hi i i
  | i, j, hij, hilo, hihi => by
    by_cases hij2 : i = j
    · subst hij2; exact le_rfl
    rw [chain_unfold]
    split
    · exact Nat.zero_le _
    next h1 =>
      split
      · next h2 =>
        have hcii := candB_diag_row t lo hi i j h2 hilo hihi hlen
        split
        · next h3 =>
          rcases h3 with h3 | h3
          · -- i = lo: chain i j = 1 ≤ chain i i
            have : 1 ≤ chain t lo hi i i := chain_pos_of_cand t lo hi i i hcii hilo
            omega
          · -- j = 0 and i ≤ j, i ≠ j: impossible
            omega
        · next h3 =>
          push_neg at h3
          obtain ⟨hilo2, hj0⟩ := h3
          have ihc := chain_le_diag_right t lo hi hlen (i - 1) (j - 1)
            (by omega) (by omega) (by omega)
          have hexp : chain t lo hi i i = chain t lo hi (i - 1) (i - 1) + 1 := by
            rw [chain_unfold]
            rw [if_neg (by omega), if_pos hcii, if_neg (by omega)]
          have : chain t lo hi (i - 1) (i - 1 : Nat) = chain t lo hi (i - 1) ((i : Nat) - 1) := rfl
          omega
      · exact Nat.zero_le _
termination_by i j => i
decreasing_by omega

/-- Membership in the scanned candidate list is exactly `candB`. -/
theorem mem_rowCands_iff (t : List Char) (lo hi i j : Nat) :
    j ∈ rowCands t t lo hi i ↔ candB t lo hi i j = true := by
  unfold rowCands candB
  simp only [List.mem_filter, Bool.and_eq_true, decide_eq_true_eq, List.elem_iff]
  tauto

/-- The candidate columns are scanned in strictly ascending order
(`b2j` lists are ascending and the range filters preserve that). -/
theorem rowCands_sorted (t : List Char) (lo hi i : Nat) :
    (rowCands t t lo hi i).Pairwise (· < ·) := by
  have hb : (b2j t (t.getD i ' ')).Pairwise (· < ·) := by
    unfold b2j occurrences
    split
    · exact List.Pairwise.nil
    · exact (List.pairwise_lt_range t.length).sublist (List.filter_sublist _)
  unfold rowCands
  exact hb.sublist (List.filter_sublist _)

/-- In a strictly ascending list split as `pre ++ x :: rest`, every member
smaller than `x` lies in `pre`. -/
theorem sorted_split_mem_left {pre rest : List Nat} {x y : Nat}
    (h : (pre ++ x :: rest).Pairwise (· < ·))
    (hy : y ∈ pre ++ x :: rest) (hyx : y < x) : y ∈ pre := by
  rcases List.mem_append.mp hy with h1 | h1
  · exact h1
  · rcases List.mem_cons.mp h1 with h2 | h2
    · omega
    · have h3 := (List.pairwise_cons.mp (List.pairwise_append.mp h).2.1).1 y h2
      omega

theorem chain_zero_of_row_lt_lo (t : List Char) (lo hi i j : Nat)
    (hilt : i < lo) : chain t lo hi i j = 0 := by
  rw [chain_unfold, if_pos hilt]

theorem chain_zero_of_not_cand (t : List Char) (lo hi i j : Nat)
    (h : ¬ candB t lo hi i j = true) : chain t lo hi i j = 0 := by
  rw [chain_unfold]
  rcases Nat.lt_or_ge i lo with h1 | h1
  · rw [if_pos h1]
  · rw [if_neg (show ¬ i < lo by omega), if_neg h]

/-- The chain length computed by the inner loop (`j2len.get(j-1, 0) + 1`)
equals `chain` at `(r, j)` for a candidate column `j`, when the previous
map holds row `r - 1` (or nothing, at the first row). -/
theorem kval_eq_chain (t : List Char) (lo hi r j : Nat) (p : Nat → Nat)
    (hp : ∀ j2, p j2 = if r = lo then 0 else chain t lo hi (r - 1) j2)
    (hc : candB t lo hi r j = true) (hr : lo ≤ r) :
    (if j = 0 then 0 else p (j - 1)) + 1 = chain t lo hi r j := by
  rw [chain_unfold, if_neg (show ¬ r < lo by omega), if_pos hc]
  by_cases hj0 : j = 0
  · rw [if_pos hj0, if_pos (Or.inr hj0)]
  · rw [if_neg hj0, hp]
    by_cases hrlo : r = lo
    · rw [if_pos (Or.inl hrlo), if_pos hrlo]
    · rw [if_neg (show ¬ (r = lo ∨ j = 0) from fun h => h.elim hrlo hj0),
        if_neg hrlo]

/-- Diagonality invariant for the running best match in the aligned DP:
the match sits on the main diagonal, and a size-`0` best is still the
initial `⟨lo, lo, 0⟩`. -/
def DiagB (lo : Nat) (m : BestM) : Prop :=
  m.bi = m.bj ∧ (m.size = 0 → m = ⟨lo, lo, 0⟩)

/-- Dominance: `m.size` bounds every chain value in rows below `r`. -/
def DomB (t : List Char) (lo hi r : Nat) (m : BestM) : Prop :=
  ∀ i j, i < r → chain t lo hi i j ≤ m.size

/-- The step function of the inner candidate fold of `rowStep`. -/
def rowF (p : Nat → Nat) (i : Nat) :
    (Nat → Nat) × BestM → Nat → (Nat → Nat) × BestM :=
  fun st j =>
    let k := (if j = 0 then 0 else p (j - 1)) + 1
    ((fun j' => if j' = j then k else st.1 j'),
     if st.2.size < k then ⟨i + 1 - k, j + 1 - k, k⟩ else st.2)

theorem rowStep_eq_foldl (p : Nat → Nat) (i : Nat) (best : BestM)
    (js : List Nat) :
    rowStep p i best js = js.foldl (rowF p i) ((fun _ => 0), best) := rfl

/-- Row invariant through the inner candidate fold on identical inputs:
the new row map holds `chain` values on the processed prefix, and the
best match stays diagonal and keeps dominating every chain seen so far.
An off-diagonal candidate can never improve the best, because its chain
is dominated either by a diagonal chain in an earlier row
(`chain_le_diag_left`) or by the diagonal candidate processed earlier in
the same ascending row scan (`chain_le_diag_right`). -/
theorem rowFold_refl (t : List Char) (lo hi r : Nat) (p : Nat → Nat)
    (hr : lo ≤ r) (hrhi : r < hi) (hlen : hi ≤ t.length)
    (hp : ∀ j2, p j2 = if r = lo then 0 else chain t lo hi (r - 1) j2) :
    ∀ (rest pre : List Nat) (g : Nat → Nat) (m : BestM),
      pre ++ rest = rowCands t t lo hi r →
      (∀ j, g j = if j ∈ pre then chain t lo hi r j else 0) →
      DiagB lo m → DomB t lo hi r m →
      (∀ j ∈ pre, chain t lo hi r j ≤ m.size) →
      (∀ j, (rest.foldl (rowF p r) (g, m)).1 j
          = if j ∈ pre ++ rest then chain t lo hi r j else 0) ∧
      DiagB lo (rest.foldl (rowF p r) (g, m)).2 ∧
      DomB t lo hi r (rest.foldl (rowF p r) (g, m)).2 ∧
      (∀ j ∈ pre ++ rest,
        chain t lo hi r j ≤ (rest.foldl (rowF p r) (g, m)).2.size) := by
  intro rest
  induction rest with
  | nil =>
    intro pre g m hsplit hg hd hdom hpre
    simp only [List.foldl_nil, List.append_nil]
    exact ⟨hg, hd, hdom, hpre⟩
  | cons j rest ih =>
    intro pre g m hsplit hg hd hdom hpre
    have hcj : candB t lo hi r j = true := by
      rw [← mem_rowCands_iff, ← hsplit]
      exact List.mem_append.mpr (Or.inr (List.mem_cons_self j rest))
    have hk := kval_eq_chain t lo hi r j p hp hcj hr
    have hk1 : 1 ≤ chain t lo hi r j := chain_pos_of_cand t lo hi r j hcj hr
    have hstep : rowF p r (g, m) j =
        ((fun j2 => if j2 = j then chain t lo hi r j else g j2),
         if m.size < chain t lo hi r j then
           (⟨r + 1 - chain t lo hi r j, j + 1 - chain t lo hi r j,
             chain t lo hi r j⟩ : BestM)
         else m) := by
      simp only [rowF]
      rw [hk]
    have hg2 : ∀ j2, (fun j2 => if j2 = j then chain t lo hi r j else g j2) j2
        = if j2 ∈ pre ++ [j] then chain t lo hi r j2 else 0 := by
      intro j2
      dsimp only
      by_cases hjj : j2 = j
      · subst hjj
        rw [if_pos rfl,
          if_pos (List.mem_append.mpr (Or.inr (List.mem_singleton.mpr rfl)))]
      · rw [if_neg hjj, hg j2]
        by_cases hjp : j2 ∈ pre
        · rw [if_pos hjp, if_pos (List.mem_append.mpr (Or.inl hjp))]
        · rw [if_neg hjp, if_neg (fun hmem => by
            rcases List.mem_append.mp hmem with h | h
            · exact hjp h
            · exact hjj (List.mem_singleton.mp h))]
    rw [List.foldl_cons, hstep]
    by_cases hfire : m.size < chain t lo hi r j
    · rw [if_pos hfire]
      have hjr : j = r := by
        rcases Nat.lt_trichotomy j r with hlt | heq | hgt
        · exfalso
          have h1 := chain_le_diag_left t lo hi r j (le_of_lt hlt)
          have h2 := hdom j j hlt
          omega
        · exact heq
        · exfalso
          have h1 := chain_le_diag_right t lo hi hlen r j (le_of_lt hgt) hr hrhi
          have hcr : candB t lo hi r r = true :=
            candB_diag_row t lo hi r j hcj hr hrhi hlen
          have hsorted : (pre ++ j :: rest).Pairwise (· < ·) := by
            rw [hsplit]; exact rowCands_sorted t lo hi r
          have hrin : r ∈ pre ++ j :: rest := by
            rw [hsplit]
            exact (mem_rowCands_iff t lo hi r r).mpr hcr
          have hrmem : r ∈ pre := sorted_split_mem_left hsorted hrin hgt
          have h2 := hpre r hrmem
          omega
      subst hjr
      have hmain := ih (pre ++ [j])
        (fun j2 => if j2 = j then chain t lo hi j j else g j2)
        ⟨j + 1 - chain t lo hi j j, j + 1 - chain t lo hi j j,
          chain t lo hi j j⟩
        (by simpa using hsplit) hg2
        ⟨rfl, by intro h0; exfalso; dsimp only at h0; omega⟩
        (by
          intro i j2 hilt
          dsimp only
          exact le_trans (hdom i j2 hilt) (le_of_lt hfire))
        (by
          intro j2 hj2
          dsimp only
          rcases List.mem_append.mp hj2 with h | h
          · exact le_trans (hpre j2 h) (le_of_lt hfire)
          · rcases List.mem_singleton.mp h with rfl
            exact le_rfl)
      obtain ⟨hm1, hm2, hm3, hm4⟩ := hmain
      simp only [List.append_assoc, List.singleton_append] at hm1 hm4
      exact ⟨hm1, hm2, hm3, hm4⟩
    · rw [if_neg hfire]
      have hmain := ih (pre ++ [j])
        (fun j2 => if j2 = j then chain t lo hi r j else g j2) m
        (by simpa using hsplit) hg2 hd hdom
        (by
          intro j2 hj2
          rcases List.mem_append.mp hj2 with h | h
          · exact hpre j2 h
          · rcases List.mem_singleton.mp h with rfl
            omega)
      obtain ⟨hm1, hm2, hm3, hm4⟩ := hmain
      simp only [List.append_assoc, List.singleton_append] at hm1 hm4
      exact ⟨hm1, hm2, hm3, hm4⟩

/-- One full DP row on identical inputs: the produced map is exactly
`chain` at row `r`, and the best stays diagonal and dominates all rows
up to `r`. -/
theorem rowStep_refl (t : List Char) (lo hi r : Nat) (p : Nat → Nat)
    (best : BestM) (hr : lo ≤ r) (hrhi : r < hi) (hlen : hi ≤ t.length)
    (hp : ∀ j2, p j2 = if r = lo then 0 else chain t lo hi (r - 1) j2)
    (hd : DiagB lo best) (hdom : DomB t lo hi r best) :
    (∀ j, (rowStep p r best (rowCands t t lo hi r)).1 j = chain t lo hi r j) ∧
    DiagB lo (rowStep p r best (rowCands t t lo hi r)).2 ∧
    DomB t lo hi (r + 1) (rowStep p r best (rowCands t t lo hi r)).2 := by
  rw [rowStep_eq_foldl]
  obtain ⟨h1, h2, h3, h4⟩ := rowFold_refl t lo hi r p hr hrhi hlen hp
    (rowCands t t lo hi r) [] (fun _ => 0) best rfl
    (by intro j; rw [if_neg (List.not_mem_nil j)]) hd hdom
    (by intro j hj; exact absurd hj (List.not_mem_nil j))
  simp only [List.nil_append] at h1 h4
  refine ⟨?_, h2, ?_⟩
  · intro j
    rw [h1 j]
    by_cases hj : j ∈ rowCands t t lo hi r
    · rw [if_pos hj]
    · rw [if_neg hj]
      exact (chain_zero_of_not_cand t lo hi r j
        (fun hc => hj ((mem_rowCands_iff t lo hi r j).mpr hc))).symm
  · intro i j hilt
    rcases Nat.lt_or_ge i r with h | h
    · exact h3 i j h
    · have hir : i = r := by omega
      subst hir
      by_cases hj : j ∈ rowCands t t lo hi i
      · exact h4 j hj
      · rw [chain_zero_of_not_cand t lo hi i j
          (fun hc => hj ((mem_rowCands_iff t lo hi i j).mpr hc))]
        exact Nat.zero_le _

/-- On identical inputs over an aligned region, the DP's best match is
diagonal (and still the initial `⟨lo, lo, 0⟩` when its size is zero). -/
theorem dpLoop_refl (t : List Char) (lo hi : Nat) (hlh : lo ≤ hi)
    (hlen : hi ≤ t.length) : DiagB lo (dpLoop t t lo hi lo hi) := by
  unfold dpLoop
  have main : ∀ (n r : Nat) (st : (Nat → Nat) × BestM), lo ≤ r → r + n ≤ hi →
      (∀ j2, st.1 j2 = if r = lo then 0 else chain t lo hi (r - 1) j2) →
      DiagB lo st.2 → DomB t lo hi r st.2 →
      (∀ j2, ((List.range' r n).foldl
          (fun (st : (Nat → Nat) × BestM) i =>
            rowStep st.1 i st.2 (rowCands t t lo hi i)) st).1 j2
        = if r + n = lo then 0 else chain t lo hi (r + n - 1) j2) ∧
      DiagB lo ((List.range' r n).foldl
          (fun (st : (Nat → Nat) × BestM) i =>
            rowStep st.1 i st.2 (rowCands t t lo hi i)) st).2 ∧
      DomB t lo hi (r + n) ((List.range' r n).foldl
          (fun (st : (Nat → Nat) × BestM) i =>
            rowStep st.1 i st.2 (rowCands t t lo hi i)) st).2 := by
    intro n
    induction n with
    | zero =>
      intro r st _ _ h1 h2 h3
      simpa using ⟨h1, h2, h3⟩
    | succ n ih =>
      intro r st hrlo hrn h1 h2 h3
      have hstep := rowStep_refl t lo hi r st.1 st.2 hrlo (by omega) hlen h1 h2 h3
      have hmap : ∀ j2, (rowStep st.1 r st.2 (rowCands t t lo hi r)).1 j2
          = if r + 1 = lo then 0 else chain t lo hi (r + 1 - 1) j2 := by
        intro j2
        rw [hstep.1 j2, if_neg (by omega), Nat.add_sub_cancel]
      have := ih (r + 1) (rowStep st.1 r st.2 (rowCands t t lo hi r))
        (by omega) (by omega) hmap hstep.2.1 hstep.2.2
      have e1 : r + (n + 1) = r + 1 + n := by omega
      rw [e1]
      simpa [List.range'_succ] using this
  have hres := main (hi - lo) lo ((fun _ => 0), ⟨lo, lo, 0⟩) le_rfl (by omega)
    (by intro j2; rw [if_pos rfl])
    ⟨rfl, fun _ => rfl⟩
    (by
      intro i j hilt
      rw [chain_zero_of_row_lt_lo t lo hi i j hilt])
  have e2 : lo + (hi - lo) = hi := by omega
  rw [e2] at hres
  exact hres.2.1

/-- The backward extension preserves diagonality on identical inputs
over an aligned region. -/
theorem extLowF_diag (t : List Char) (lo : Nat) :
    ∀ (fuel : Nat) (m : BestM), DiagB lo m →
      DiagB lo (extLowF t t lo lo fuel m)
  | 0, _, hm => hm
  | fuel + 1, m, hm => by
    unfold extLowF
    split
    · obtain ⟨h1, h2⟩ := hm
      refine extLowF_diag t lo fuel _ ⟨?_, ?_⟩
      · dsimp only
        omega
      · intro h0
        dsimp only at h0
        exact absurd h0 (Nat.succ_ne_zero _)
    · exact hm

/-- The forward extension preserves diagonality on identical inputs
over an aligned region. -/
theorem extHighF_diag (t : List Char) (lo hi : Nat) :
    ∀ (fuel : Nat) (m : BestM), DiagB lo m →
      DiagB lo (extHighF t t hi hi fuel m)
  | 0, _, hm => hm
  | fuel + 1, m, hm => by
    unfold extHighF
    split
    · refine extHighF_diag t lo hi fuel _ ⟨hm.1, ?_⟩
      intro h0
      dsimp only at h0
      exact absurd h0 (Nat.succ_ne_zero _)
    · exact hm

/-- The forward extension never shrinks the match. -/
theorem extHighF_size_mono (a b : List Char) (ahi bhi : Nat) :
    ∀ (fuel : Nat) (m : BestM), m.size ≤ (extHighF a b ahi bhi fuel m).size
  | 0, _ => le_rfl
  | fuel + 1, m => by
    unfold extHighF
    split
    · have := extHighF_size_mono a b ahi bhi fuel ⟨m.bi, m.bj, m.size + 1⟩
      dsimp only at this
      omega
    · exact le_rfl

/-- The backward extension never shrinks the match. -/
theorem extLowF_size_mono (a b : List Char) (alo blo : Nat) :
    ∀ (fuel : Nat) (m : BestM), m.size ≤ (extLowF a b alo blo fuel m).size
  | 0, _ => le_rfl
  | fuel + 1, m => by
    unfold extLowF
    split
    · have := extLowF_size_mono a b alo blo fuel ⟨m.bi - 1, m.bj - 1, m.size + 1⟩
      dsimp only at this
      omega
    · exact le_rfl

/-- On identical inputs `find_longest_match` returns a diagonal match,
nonempty whenever the region is: even when the DP returns size `0`, the
forward extension fires immediately on the trivially equal characters. -/
theorem flm_refl (t : List Char) (lo hi : Nat) (hlh : lo < hi)
    (hlen : hi ≤ t.length) :
    (find_longest_match t t lo hi lo hi).bi
        = (find_longest_match t t lo hi lo hi).bj ∧
      1 ≤ (find_longest_match t t lo hi lo hi).size := by
  have hd := dpLoop_refl t lo hi (le_of_lt hlh) hlen
  have he : DiagB lo (extLow t t lo lo (dpLoop t t lo hi lo hi)) :=
    extLowF_diag t lo _ _ hd
  unfold find_longest_match
  set e := extLow t t lo lo (dpLoop t t lo hi lo hi) with hedef
  have hfd : DiagB lo (extHigh t t hi hi e) := by
    unfold extHigh
    exact extHighF_diag t lo hi _ e he
  have hsz : 1 ≤ (extHigh t t hi hi e).size := by
    by_cases h0 : e.size = 0
    · have he0 : e = ⟨lo, lo, 0⟩ := he.2 h0
      rw [he0]
      unfold extHigh
      obtain ⟨f, hf⟩ : ∃ f,
          hi - ((⟨lo, lo, 0⟩ : BestM).bi + (⟨lo, lo, 0⟩ : BestM).size) = f + 1 :=
        ⟨hi - lo - 1, by dsimp only; omega⟩
      rw [hf]
      unfold extHighF
      rw [if_pos ⟨by dsimp only; omega, by dsimp only; omega, rfl⟩]
      exact extHighF_size_mono t t hi hi f ⟨lo, lo, 0 + 1⟩
    · have hmono := extHighF_size_mono t t hi hi (hi - (e.bi + e.size)) e
      unfold extHigh
      omega
  exact ⟨hfd.1, hsz⟩

/-- On identical inputs over an aligned region, the total matched size
is the whole region: the longest match is diagonal and nonempty, and the
two recursive sub-regions are again aligned. -/
theorem matchTotalF_refl (t : List Char) :
    ∀ (fuel lo hi : Nat), hi ≤ t.length → lo ≤ hi → hi - lo ≤ fuel →
      matchTotalF t t fuel lo hi lo hi = hi - lo := by
  intro fuel
  induction fuel with
  | zero =>
    intro lo hi _ _ hf
    unfold matchTotalF
    omega
  | succ fuel ih =>
    intro lo hi hlen hlh hf
    have hb := flm_bounds t t lo hi lo hi hlh hlh
    unfold matchTotalF
    cases hm : find_longest_match t t lo hi lo hi with
    | mk bi bj k =>
      rw [hm] at hb
      obtain ⟨b1, b2, b3, b4⟩ := hb
      dsimp only at b1 b2 b3 b4 ⊢
      by_cases hk : k = 0
      · rw [if_pos hk]
        rcases Nat.lt_or_ge lo hi with hlt | hge
        · exfalso
          have hsz := (flm_refl t lo hi hlt hlen).2
          rw [hm] at hsz
          dsimp only at hsz
          omega
        · omega
      · rw [if_neg hk]
        have hdiag : bi = bj := by
          rcases Nat.lt_or_ge lo hi with hlt | hge
          · have hdg := (flm_refl t lo hi hlt hlen).1
            rw [hm] at hdg
            exact hdg
          · omega
        subst hdiag
        have hleft : (if lo < bi ∧ lo < bi then
            matchTotalF t t fuel lo bi lo bi else 0) = bi - lo := by
          split
          · next h =>
            exact ih lo bi (le_trans (by omega) hlen) (by omega) (by omega)
          · next h => omega
        have hright : (if bi + k < hi ∧ bi + k < hi then
            matchTotalF t t fuel (bi + k) hi (bi + k) hi else 0)
            = hi - (bi + k) := by
          split
          · next h => exact ih (bi + k) hi hlen (by omega) (by omega)
          · next h => omega
        rw [hleft, hright]
        omega

/-- `ratio()` on two identical sequences is `1`. -/
theorem ratioVal_refl (x : String) : ratioVal x x = 1 := by
  unfold ratioVal
  by_cases hT : x.data.length + x.data.length = 0
  · rw [if_pos hT]
  · rw [if_neg hT]
    have hM : match_total x.data x.data 0 x.data.length 0 x.data.length
        = x.data.length := by
      unfold match_total
      have := matchTotalF_refl x.data (x.data.length - 0 + 1) 0 x.data.length
        le_rfl (Nat.zero_le _) (by omega)
      simpa using this
    rw [hM]
    have hne : ((x.data.length + x.data.length : Nat) : Rat) ≠ 0 := by
      have h1 : x.data.length + x.data.length ≠ 0 := hT
      exact_mod_cast h1
    rw [div_eq_one_iff_eq hne]
    push_cast
    ring

end SeqMatch

/-!
## Claim C7 — similarity: reflexive and bounded, but not symmetric
-/

/-- C7 (counterexample): `_calculate_similarity` is not symmetric.
`difflib.SequenceMatcher.ratio()` depends on the argument order:
for `"tide"` vs `"diet"` it finds only the 1-char block `"t"`
(ratio `2·1/8 = 0.25`), while for `"diet"` vs `"tide"` it finds `"de"`
(ratio `2·2/8 = 0.5`). -/
theorem claim7_counterexample :
    calculate_similarity "tide" "diet" = mkRat 1 4 ∧
    calculate_similarity "diet" "tide" = mkRat 1 2 ∧
    calculate_similarity "tide" "diet" ≠ calculate_similarity "diet" "tide" := by
  refine ⟨?_, ?_, ?_⟩
  · with_unfolding_all rfl
  · with_unfolding_all rfl
  · intro h
    rw [(by with_unfolding_all rfl :
          calculate_similarity "tide" "diet" = mkRat 1 4),
        (by with_unfolding_all rfl :
          calculate_similarity "diet" "tide" = mkRat 1 2)] at h
    exact absurd h (by decide)

/-- C7 (amended): for every pair of texts, `similarity(x, x) = 1.0` and
the result always lies in `[0, 1]`; the symmetry half of the original
claim is false (`SequenceMatcher.ratio` is order-dependent). -/
theorem claim7_reflexive_and_bounded :
    (∀ x : String, calculate_similarity x x = 1) ∧
    (∀ x y : String, 0 ≤ calculate_similarity x y ∧
      calculate_similarity x y ≤ 1) := by
  constructor
  · intro x
    unfold calculate_similarity
    exact SeqMatch.ratioVal_refl x.toLower
  · intro x y
    unfold calculate_similarity
    exact SeqMatch.ratioVal_mem_unit x.toLower y.toLower

end ClaimsProc
